import Mathlib

/-!
Shallow embedding of the conversation thread store of the Email-Agent
repository (src/thread_manager.py).

Modelling conventions:
* A Python record dict (the email_data built by the module-level
  add_email_to_thread) is the structure Email; the optional uid field is
  Option Int.  ISO-8601 timestamp strings are modelled as Nat: the Facade
  always writes same-format ISO strings, whose lexicographic order is the
  chronological order, so string comparison in the source corresponds to
  Nat comparison here.
* A Python dict mapping thread ids to histories is an insertion-ordered
  association list (Threads) with at most one binding per key; dict
  lookup, insert-or-update and key deletion are lookupThread,
  updateThread and List.filter on the key.
* The JSON provider methods are split in two layers.  The pure layer acts
  on the decoded mapping (the provider does load -> mutate in memory ->
  save, and save/load round-trip the mapping).  The file-system layer
  (FileSys) models the canonical file, the sibling .tmp file and the
  timestamped .backup_ files, with explicit failure-injection points for
  the write and the atomic os.replace; it is used for the atomicity and
  corruption-recovery claims.
* The SQLite table is a list of rows in autoincrement id order together
  with the next id; ORDER BY timestamp is insertion sort by the
  timestamp field.  The pure model commits every statement (the source
  wraps insert + trim in one connection and returns False on exceptions;
  transient I/O failure is outside the pure model).
* datetime.now() is a Nat parameter called now; datetime.now() -
  timedelta(days=days_old) is truncated subtraction now - days_old.
-/

set_option linter.unusedVariables false

/-- One stored message record: the email_data dict assembled in
add_email_to_thread (thread_manager.py lines 715-722). -/
structure Email where
  uid : Option Int
  sender : String
  subject : String
  body : String
  timestamp : Nat
  is_bot_reply : Bool
  deriving DecidableEq, Repr

/-- The decoded thread mapping: Python dict thread_id -> list of records. -/
abbrev Threads := List (String × List Email)

/-- Python threads.get(thread_id, []): value of the first (only) binding
of the key, or the empty history. -/
def lookupThread : Threads → String → List Email
  | [], _ => []
  | (k, v) :: rest, t => if k = t then v else lookupThread rest t

/-- Python threads[thread_id] = h: replace the binding in place or append
a new binding (dict insertion order). -/
def updateThread : Threads → String → List Email → Threads
  | [], t, h => [(t, h)]
  | (k, v) :: rest, t, h => if k = t then (t, h) :: rest else (k, v) :: updateThread rest t h

/-- The last n elements of a list (the n most recent in append order). -/
def takeLast (n : Nat) (l : List α) : List α :=
  (l.reverse.take n).reverse

/-- Python slice l[-n:]: for n > 0 the last n elements; for n = 0 the
slice l[0:] is the whole list. -/
def pyLastSlice (n : Nat) (l : List α) : List α :=
  if n = 0 then l else takeLast n l

/-- The records appended to thread t, in append order, out of a call
sequence of (thread_id, record) appends. -/
def appendsTo (t : String) : List (String × Email) → List Email
  | [] => []
  | (k, e) :: rest => if k = t then e :: appendsTo t rest else appendsTo t rest

/-- Timestamp of max(history, key=lambda x: x.get('timestamp', '')) —
the newest timestamp in a history (0 on the empty history, which the
callers guard against). -/
def newest_timestamp (history : List Email) : Nat :=
  (history.map (fun e => e.timestamp)).foldl max 0

/-- Cleanup eligibility used by JSONStorageProvider.cleanup_old_threads
(lines 231-243): an empty thread, or one whose newest record timestamp
is before the cutoff. -/
def staleThread (cutoff : Nat) (history : List Email) : Bool :=
  history.isEmpty || decide (newest_timestamp history < cutoff)

/-- The integer counters of get_storage_stats, shared by the backends.
The float average (total emails / total threads, which JSON and SQLite
round to one decimal and the mock does not) and the backend-identifying
fields (paths, sizes, operation counter) are outside this record. -/
structure StatsCounts where
  total_threads : Nat
  total_emails : Nat
  threads_with_history : Nat
  threads_at_limit : Nat
  bot_replies : Nat
  user_emails : Nat
  deriving DecidableEq, Repr

namespace JsonProvider

/-- JSONStorageProvider.add_email_to_thread (lines 171-213), pure layer:
reject an empty thread id; append; trim with the Python slice
threads[thread_id][-H:] when the new count exceeds the cap H. -/
def add_email_to_thread (H : Nat) (threads : Threads) (thread_id : String)
    (email_data : Email) : Bool × Threads :=
  if thread_id = "" then (false, threads)
  else
    let hist := lookupThread threads thread_id ++ [email_data]
    let hist₂ := if H < hist.length then pyLastSlice H hist else hist
    (true, updateThread threads thread_id hist₂)

/-- JSONStorageProvider.get_thread_history (lines 153-169): empty id gives
[], otherwise threads.get(thread_id, []) — the full stored history,
with no truncation to the cap. -/
def get_thread_history (threads : Threads) (thread_id : String) : List Email :=
  if thread_id = "" then [] else lookupThread threads thread_id

/-- JSONStorageProvider.cleanup_old_threads (lines 215-266): collect the
ids of empty threads and of threads whose newest timestamp is before
now - days_old, delete them, return how many were deleted. -/
def cleanup_old_threads (now days_old : Nat) (threads : Threads) : Threads × Nat :=
  let cutoff := now - days_old
  let threads_to_remove := (threads.filter (fun p => staleThread cutoff p.2)).map Prod.fst
  (threads.filter (fun p => !(decide (p.1 ∈ threads_to_remove))), threads_to_remove.length)

/-- JSONStorageProvider.get_storage_stats (lines 268-322), integer
counters only: note the early return of all-zero counters on an empty
mapping. -/
def get_storage_stats (H : Nat) (threads : Threads) : StatsCounts :=
  if threads = [] then ⟨0, 0, 0, 0, 0, 0⟩
  else
    { total_threads := threads.length
      total_emails := (threads.map (fun p => p.2.length)).sum
      threads_with_history := (threads.filter (fun p => decide (1 < p.2.length))).length
      threads_at_limit := (threads.filter (fun p => decide (H ≤ p.2.length))).length
      bot_replies := (threads.map (fun p => (p.2.filter (fun e => e.is_bot_reply)).length)).sum
      user_emails := (threads.map (fun p => (p.2.filter (fun e => !e.is_bot_reply)).length)).sum }

end JsonProvider

/-- Contents of the persisted JSON file at the granularity the source
distinguishes: a document that json.load decodes to a mapping, or bytes
on which json.load raises JSONDecodeError. -/
inductive FileContent where
  | valid (ts : Threads)
  | invalid (raw : String)
  deriving DecidableEq, Repr

/-- The file-system neighbourhood of the JSON provider: the canonical
file self.file_path, the sibling temporary file file_path + ".tmp", and
the file_path + ".backup_<unix-time>" files keyed by their suffix. -/
structure FileSys where
  main : Option FileContent
  tmp : Option FileContent
  backups : List (Nat × FileContent)
  deriving DecidableEq, Repr

/-- Failure-injection points of JSONStorageProvider.save_threads:
no failure; an exception while writing the temporary file (leaving it
absent or half-written, then removed when cleanup succeeds); an
exception from the atomic os.replace itself (which has no effect on the
canonical file), with the fully written temporary removed when cleanup
succeeds. -/
inductive SaveFail where
  | noFail
  | writeFail (cleanupOk : Bool)
  | replaceFail (cleanupOk : Bool)
  deriving DecidableEq, Repr

namespace JsonProvider

/-- JSONStorageProvider.save_threads (lines 107-151) over the file
system: write the whole mapping to file_path + ".tmp", then atomically
os.replace it over the canonical path; on any exception, remove the
temporary if it exists and return False. halfWritten is the temporary
content left behind by a write that failed midway (none if the open
itself failed). -/
def save_threads (fs : FileSys) (threads : Threads) (outcome : SaveFail)
    (halfWritten : Option FileContent) : FileSys × Bool :=
  match outcome with
  | .noFail =>
      ({ fs with main := some (.valid threads), tmp := none }, true)
  | .writeFail cleanupOk =>
      let fs₁ := { fs with tmp := halfWritten }
      (if cleanupOk then { fs₁ with tmp := none } else fs₁, false)
  | .replaceFail cleanupOk =>
      let fs₁ := { fs with tmp := some (.valid threads) }
      (if cleanupOk then { fs₁ with tmp := none } else fs₁, false)

/-- JSONStorageProvider.load_threads (lines 61-105): missing file gives
the empty mapping; a decodable file gives its mapping; an undecodable
file is renamed to file_path + ".backup_<unix-time>" (os.rename modelled
as succeeding) and the empty mapping is returned. now is int(time.time()). -/
def load_threads (fs : FileSys) (now : Nat) : FileSys × Threads :=
  match fs.main with
  | none => (fs, [])
  | some (.valid ts) => (fs, ts)
  | some (.invalid raw) =>
      ({ fs with main := none, backups := (now, .invalid raw) :: fs.backups }, [])

end JsonProvider

/-- One row of the SQLite threads table: the autoincrement primary key
id, the thread key, and the record fields (uid, sender, subject, body,
timestamp, is_bot_reply). -/
structure Row where
  id : Nat
  tid : String
  email : Email
  deriving DecidableEq, Repr

/-- The SQLite database: rows in autoincrement id order plus the next
autoincrement value. -/
structure SqlState where
  rows : List Row
  nextId : Nat
  deriving DecidableEq, Repr

/-- The ORDER BY timestamp comparison on rows. -/
def tsLE (a b : Row) : Prop :=
  a.email.timestamp ≤ b.email.timestamp

instance : DecidableRel tsLE := fun a b => Nat.decLe _ _

/-- SELECT ... WHERE thread_id = t, in table order. -/
def threadRows (rows : List Row) (t : String) : List Row :=
  rows.filter (fun r => decide (r.tid = t))

namespace SqliteProvider

/-- SQLiteStorageProvider.add_email_to_thread (lines 462-506): reject an
empty thread id; INSERT the row; COUNT the rows of the thread; if the
count exceeds the cap H, DELETE the rows of the thread whose id is among
the first count - H of the thread rows in ORDER BY timestamp. -/
def add_email_to_thread (H : Nat) (st : SqlState) (thread_id : String)
    (email_data : Email) : Bool × SqlState :=
  if thread_id = "" then (false, st)
  else
    let rows₁ := st.rows ++ [⟨st.nextId, thread_id, email_data⟩]
    let count := (threadRows rows₁ thread_id).length
    let rows₂ :=
      if H < count then
        let victims := (List.insertionSort tsLE (threadRows rows₁ thread_id)).take (count - H)
        rows₁.filter (fun r => !(decide (r.tid = thread_id) && victims.any (fun v => decide (v.id = r.id))))
      else rows₁
    (true, ⟨rows₂, st.nextId + 1⟩)

/-- SQLiteStorageProvider.get_thread_history (lines 426-460): empty id
gives []; otherwise SELECT the record fields of the thread rows ORDER BY
timestamp LIMIT H — the first H in timestamp order. -/
def get_thread_history (H : Nat) (st : SqlState) (thread_id : String) : List Email :=
  if thread_id = "" then []
  else ((List.insertionSort tsLE (threadRows st.rows thread_id)).take H).map Row.email

/-- SQLiteStorageProvider.cleanup_old_threads (lines 508-539): the
DISTINCT thread ids HAVING MAX(timestamp) < cutoff, DELETE all their
rows, return how many distinct thread ids were removed. -/
def cleanup_old_threads (now days_old : Nat) (st : SqlState) : SqlState × Nat :=
  let cutoff := now - days_old
  let stale := (st.rows.map Row.tid).dedup.filter
    (fun t => decide (newest_timestamp ((threadRows st.rows t).map Row.email) < cutoff))
  (⟨st.rows.filter (fun r => !(decide (r.tid ∈ stale))), st.nextId⟩, stale.length)

/-- SQLiteStorageProvider.get_storage_stats (lines 541-591), integer
counters only: COUNT(DISTINCT thread_id); COUNT(*); the number of GROUP
BY thread_id groups HAVING COUNT(*) > 1 and HAVING COUNT(*) >= H (the
source counts the fetched group rows); COUNT(*) WHERE is_bot_reply = 1;
and user_emails computed as total_emails - bot_replies. -/
def get_storage_stats (H : Nat) (st : SqlState) : StatsCounts :=
  let tids := (st.rows.map Row.tid).dedup
  { total_threads := tids.length
    total_emails := st.rows.length
    threads_with_history := (tids.filter (fun t => decide (1 < (threadRows st.rows t).length))).length
    threads_at_limit := (tids.filter (fun t => decide (H ≤ (threadRows st.rows t).length))).length
    bot_replies := (st.rows.filter (fun r => r.email.is_bot_reply)).length
    user_emails := st.rows.length - (st.rows.filter (fun r => r.email.is_bot_reply)).length }

end SqliteProvider

/-- The logical thread mapping held by the SQLite table, as
SQLiteStorageProvider.load_threads (lines 362-396) decodes it: one entry
per distinct thread id, holding the records of the rows of that thread.
(The source emits the dict keys in ORDER BY thread_id order and each
history in timestamp order; no claim observes the key order, and on
states reached through Facade appends the within-thread timestamp order
coincides with the table insertion order used here.)  It is the common
logical state for the cross-backend parity statements. -/
def sqlThreads (st : SqlState) : Threads :=
  ((st.rows.map Row.tid).dedup).map (fun t => (t, (threadRows st.rows t).map Row.email))

/-- Prefix test on character lists (one alignment of the Python
substring check). -/
def charsPrefix : List Char → List Char → Bool
  | [], _ => true
  | _ :: _, [] => false
  | a :: as, b :: bs => a == b && charsPrefix as bs

/-- Substring test on character lists. -/
def charsContain (pat : List Char) : List Char → Bool
  | [] => pat.isEmpty
  | b :: bs => charsPrefix pat (b :: bs) || charsContain pat bs

/-- Python 'old' in thread_id.lower(). -/
def hasOld (thread_id : String) : Bool :=
  charsContain "old".toList (thread_id.toList.map Char.toLower)

namespace MockProvider

/-- MockStorageProvider.load_threads (lines 602-606), value level: the
stored mapping (the aliasing of the shallow .copy() is modelled
separately at the heap level). -/
def load_threads (threads : Threads) : Threads :=
  threads

/-- MockStorageProvider.get_thread_history (lines 615-619):
self.threads.get(thread_id, []).copy() — the full stored history, with
no empty-id guard and no truncation to the cap. -/
def get_thread_history (threads : Threads) (thread_id : String) : List Email :=
  lookupThread threads thread_id

/-- MockStorageProvider.add_email_to_thread (lines 621-635): no empty-id
guard; append; keep the last H on overflow; always return True. -/
def add_email_to_thread (H : Nat) (threads : Threads) (thread_id : String)
    (email_data : Email) : Bool × Threads :=
  let hist := lookupThread threads thread_id ++ [email_data]
  let hist₂ := if H < hist.length then pyLastSlice H hist else hist
  (true, updateThread threads thread_id hist₂)

/-- MockStorageProvider.cleanup_old_threads (lines 637-647): delete the
threads whose id contains the substring "old" (case-insensitive),
ignoring days_old; return how many were deleted. -/
def cleanup_old_threads (days_old : Nat) (threads : Threads) : Threads × Nat :=
  let old_threads := (threads.filter (fun p => hasOld p.1)).map Prod.fst
  (threads.filter (fun p => !(decide (p.1 ∈ old_threads))), old_threads.length)

/-- MockStorageProvider.get_storage_stats (lines 649-664), integer
counters only (no empty-mapping early return in the source). -/
def get_storage_stats (H : Nat) (threads : Threads) : StatsCounts :=
  { total_threads := threads.length
    total_emails := (threads.map (fun p => p.2.length)).sum
    threads_with_history := (threads.filter (fun p => decide (1 < p.2.length))).length
    threads_at_limit := (threads.filter (fun p => decide (H ≤ p.2.length))).length
    bot_replies := (threads.map (fun p => (p.2.filter (fun e => e.is_bot_reply)).length)).sum
    user_emails := (threads.map (fun p => (p.2.filter (fun e => !e.is_bot_reply)).length)).sum }

end MockProvider

/-- The email_data dict built by the module-level add_email_to_thread
(lines 715-722): the Facade stamps timestamp = datetime.now() itself. -/
def make_email_data (uid : Option Int) (sender subject body : String) (now : Nat)
    (is_bot_reply : Bool) : Email :=
  ⟨uid, sender, subject, body, now, is_bot_reply⟩

namespace Facade

/-- Module-level add_email_to_thread (lines 710-724) with the mock
provider active: build email_data and delegate — the Facade itself
performs no thread_id validation. -/
def add_email_to_thread_mock (H : Nat) (threads : Threads) (thread_id sender subject body : String)
    (uid : Option Int) (is_bot_reply : Bool) (now : Nat) : Bool × Threads :=
  MockProvider.add_email_to_thread H threads thread_id
    (make_email_data uid sender subject body now is_bot_reply)

/-- Module-level add_email_to_thread with the JSON provider active
(pure layer). -/
def add_email_to_thread_json (H : Nat) (threads : Threads) (thread_id sender subject body : String)
    (uid : Option Int) (is_bot_reply : Bool) (now : Nat) : Bool × Threads :=
  JsonProvider.add_email_to_thread H threads thread_id
    (make_email_data uid sender subject body now is_bot_reply)

end Facade

/-- The From-label of format_thread_context (line 743): "Bot" for a bot
reply, else the sender. -/
def sender_label (e : Email) : String :=
  if e.is_bot_reply then "Bot" else e.sender

/-- The "-" * 40 separator line. -/
def dashLine : String :=
  String.mk (List.replicate 40 '-')

/-- The four lines appended per record by the loop of
format_thread_context (lines 750-753). -/
def emailBlock (e : Email) : List String :=
  ["\nFrom: " ++ sender_label e, "Subject: " ++ e.subject, "Message: " ++ e.body, dashLine]

/-- Module-level format_thread_context (lines 727-765): empty history
gives ""; otherwise the header line, four lines per record in stored
order, and the trailing instruction marker, joined with newlines. -/
def format_thread_context (thread_history : List Email) : String :=
  if thread_history = [] then ""
  else
    String.intercalate "\n"
      ((thread_history.foldl (fun acc e => acc ++ emailBlock e)
          ["Here is the conversation history:"])
        ++ ["\nNow please reply to the latest email below:"])

/-- The From-label as the specification words it: "system" for a reply,
else the sender.  Used only to compare the source against the
specification text. -/
def sender_label_specWords (e : Email) : String :=
  if e.is_bot_reply then "system" else e.sender

/-- format_thread_context as the specification words it, differing only
in the reply label. -/
def format_thread_context_specWords (thread_history : List Email) : String :=
  if thread_history = [] then ""
  else
    String.intercalate "\n"
      ((thread_history.foldl
          (fun acc e =>
            acc ++ ["\nFrom: " ++ sender_label_specWords e, "Subject: " ++ e.subject,
              "Message: " ++ e.body, dashLine])
          ["Here is the conversation history:"])
        ++ ["\nNow please reply to the latest email below:"])

/-- The storage provider variants the factory can construct. -/
inductive ProviderKind where
  | json
  | sqlite
  | mock
  deriving DecidableEq, Repr

/-- Python s.lower() as a character-list computation. -/
def lowerChars (s : String) : List Char :=
  s.toList.map Char.toLower

/-- get_storage_provider (lines 667-682): dispatch on the lowercased
configured provider type; any unknown value falls back to the JSON
provider (after logging an error). -/
def get_storage_provider (provider_type : String) : ProviderKind :=
  let p := lowerChars provider_type
  if p = "json".toList then .json
  else if p = "sqlite".toList then .sqlite
  else if p = "mock".toList then .mock
  else .json


/-- One append step of the JSON backend (the state transformer of
add_email_to_thread). -/
def jsonStep (H : Nat) (ts : Threads) (p : String × Email) : Threads :=
  (JsonProvider.add_email_to_thread H ts p.1 p.2).2

/-- One append step of the mock backend. -/
def mockStep (H : Nat) (ts : Threads) (p : String × Email) : Threads :=
  (MockProvider.add_email_to_thread H ts p.1 p.2).2

/-- One append step of the SQLite backend. -/
def sqlStep (H : Nat) (st : SqlState) (p : String × Email) : SqlState :=
  (SqliteProvider.add_email_to_thread H st p.1 p.2).2

/-- The JSON backend state after a sequence of appends from the empty
store. -/
def jsonRun (H : Nat) (appends : List (String × Email)) : Threads :=
  appends.foldl (jsonStep H) []

/-- The mock backend state after a sequence of appends from the empty
store. -/
def mockRun (H : Nat) (appends : List (String × Email)) : Threads :=
  appends.foldl (mockStep H) []

/-- The SQLite backend state after a sequence of appends from the empty
database. -/
def sqlRun (H : Nat) (appends : List (String × Email)) : SqlState :=
  appends.foldl (sqlStep H) ⟨[], 0⟩

/-!
Heap-level model of the mock provider reads, for the defensive-copy
claim.  Python objects live on a heap addressed by Nat: record dicts
(recs), history list objects (lists, holding record addresses) and
thread dict objects (dicts, holding per-key list addresses).  internal
is the address of self.threads; next is the allocator. dict.copy() and
list.copy() allocate or return a fresh top-level container holding the
same nested addresses — the shallow copies the source performs.
-/
structure MockHeap where
  recs : Nat → Email
  lists : Nat → List Nat
  dicts : Nat → List (String × Nat)
  internal : Nat
  next : Nat

namespace MockProviderHeap

/-- MockStorageProvider.load_threads at the heap level:
self.threads.copy() allocates a fresh dict object carrying the same
(key, list-address) entries as the internal dict, and returns its
address. -/
def load_threads (h : MockHeap) : MockHeap × Nat :=
  ({ h with dicts := Function.update h.dicts h.next (h.dicts h.internal),
            next := h.next + 1 }, h.next)

/-- MockStorageProvider.get_thread_history at the heap level:
self.threads.get(thread_id, []).copy() is a fresh list object carrying
the same record addresses as the stored history list. -/
def get_thread_history (h : MockHeap) (thread_id : String) : List Nat :=
  match (h.dicts h.internal).lookup thread_id with
  | none => []
  | some la => h.lists la

end MockProviderHeap

/-- Caller-side mutation of a record dict object (for example
record["body"] = ...), as a whole-value update of the object at that
address. -/
def setRec (h : MockHeap) (a : Nat) (e : Email) : MockHeap :=
  { h with recs := Function.update h.recs a e }

/-- Caller-side mutation of a dict object (adding or replacing entries
of the dict returned by load_threads). -/
def setDictEntries (h : MockHeap) (d : Nat) (entries : List (String × Nat)) : MockHeap :=
  { h with dicts := Function.update h.dicts d entries }

/-- The record values a reader of the thread obtains after a
get_thread_history call: the history addresses dereferenced. -/
def renderHistory (h : MockHeap) (t : String) : List Email :=
  (MockProviderHeap.get_thread_history h t).map h.recs

/-- The full logical content of the internal mock state. -/
def renderAll (h : MockHeap) : List (String × List Email) :=
  (h.dicts h.internal).map (fun p => (p.1, (h.lists p.2).map h.recs))

/-! Concrete inputs for the witnesses and counterexamples. -/

/-- Record A of the H = 2 cap walkthrough. -/
def eA : Email := ⟨some 1, "customer@test.com", "subject A", "body A", 1, false⟩

/-- Record B of the H = 2 cap walkthrough. -/
def eB : Email := ⟨some 2, "customer@test.com", "subject B", "body B", 2, false⟩

/-- Record C of the H = 2 cap walkthrough (a bot reply). -/
def eC : Email := ⟨none, "bot@company.com", "subject C", "body C", 3, true⟩

/-- Record D of the H = 2 cap walkthrough. -/
def eD : Email := ⟨some 4, "customer@test.com", "subject D", "body D", 4, false⟩

/-- Appending A, B, C to thread t1. -/
def ap3 : List (String × Email) := [("t1", eA), ("t1", eB), ("t1", eC)]

/-- Appending A, B, C, D to thread t1. -/
def ap4 : List (String × Email) := ap3 ++ [("t1", eD)]

/-- A mapping holding more records than a cap of 1, as save_threads can
persist (save_threads never trims). -/
def overCapThreads : Threads := [("t", [eA, eB])]

/-- The same over-cap state as SQLite rows. -/
def overCapSql : SqlState := ⟨[⟨0, "t", eA⟩, ⟨1, "t", eB⟩], 2⟩

/-- Newest record of thread "old": 40 days before now = 100 (days). -/
def eOld : Email := ⟨some 7, "old@test.com", "subject old", "body old", 60, false⟩

/-- Newest record of thread "new": 1 day before now = 100 (days). -/
def eNew : Email := ⟨some 8, "new@test.com", "subject new", "body new", 99, false⟩

/-- The cleanup walkthrough state: thread "old" 40 days stale, thread
"new" 1 day old. -/
def cleanupDemoThreads : Threads := [("old", [eOld]), ("new", [eNew])]

/-- The cleanup walkthrough state as SQLite rows. -/
def cleanupDemoSql : SqlState := ⟨[⟨0, "old", eOld⟩, ⟨1, "new", eNew⟩], 2⟩

/-- A thread stale by age whose key does not contain "old". -/
def parityStale : Threads := [("stale1", [⟨some 9, "s@x", "s", "b", 5, false⟩])]

/-- A fresh thread whose key contains the substring "old". -/
def parityGolden : Threads := [("golden", [⟨some 10, "g@x", "s", "b", 99, false⟩])]

/-- A mock heap: internal dict at address 0 maps "t" to the list object
at address 1, which holds the record object at address 2, whose value is
eA. -/
def exHeap : MockHeap :=
  { recs := fun _ => eA, lists := fun _ => [2], dicts := fun _ => [("t", 1)],
    internal := 0, next := 5 }

/-- Invariant tying a SQLite database reachable by Facade appends to its
per-thread logical content: the rows of each thread decode to hist t;
rows are strictly increasing in timestamp and in id; every timestamp is
below bound and every id below nextId. -/
structure SqlAbs (st : SqlState) (hist : String → List Email) (bound : Nat) : Prop where
  proj : ∀ t, (threadRows st.rows t).map Row.email = hist t
  tsSorted : st.rows.Pairwise (fun a b => a.email.timestamp < b.email.timestamp)
  tsLt : ∀ r ∈ st.rows, r.email.timestamp < bound
  idSorted : st.rows.Pairwise (fun a b => a.id < b.id)
  idLt : ∀ r ∈ st.rows, r.id < st.nextId

/-! Basic facts about takeLast and the Python slice. -/

theorem length_takeLast (n : Nat) (l : List α) : (takeLast n l).length = min n l.length := by
  simp [takeLast]

theorem takeLast_length_le (n : Nat) (l : List α) : (takeLast n l).length ≤ n := by
  rw [length_takeLast]
  exact Nat.min_le_left _ _

theorem takeLast_of_length_le {n : Nat} {l : List α} (h : l.length ≤ n) : takeLast n l = l := by
  unfold takeLast
  rw [List.take_of_length_le (by simpa using h), List.reverse_reverse]

theorem takeLast_nil (n : Nat) : takeLast n ([] : List α) = [] := by
  simp [takeLast]

theorem takeLast_append_left (n : Nat) (A B : List α) :
    takeLast n (takeLast n A ++ B) = takeLast n (A ++ B) := by
  unfold takeLast
  rw [List.reverse_append, List.reverse_reverse, List.reverse_append]
  rw [List.take_append_eq_append_take, @List.take_append_eq_append_take _ B.reverse A.reverse n]
  congr 1
  rw [List.take_take, Nat.min_eq_left (Nat.sub_le _ _)]

theorem takeLast_eq_drop (n : Nat) (l : List α) : takeLast n l = l.drop (l.length - n) := by
  induction l with
  | nil => simp [takeLast]
  | cons a xs ih =>
    by_cases h : (a :: xs).length ≤ n
    · rw [takeLast_of_length_le h, Nat.sub_eq_zero_of_le h, List.drop_zero]
    · have hlen : n ≤ xs.length := by
        simp only [List.length_cons] at h
        omega
      have h1 : takeLast n (a :: xs) = takeLast n xs := by
        unfold takeLast
        rw [List.reverse_cons, List.take_append_eq_append_take]
        have h2 : n - xs.reverse.length = 0 := by
          rw [List.length_reverse]
          omega
        rw [h2]
        simp
      have h3 : (a :: xs).length - n = (xs.length - n) + 1 := by
        simp only [List.length_cons]
        omega
      rw [h1, ih, h3, List.drop_succ_cons]

theorem pyLastSlice_pos {n : Nat} (hn : 0 < n) (l : List α) : pyLastSlice n l = takeLast n l := by
  unfold pyLastSlice
  rw [if_neg (by omega)]

theorem trim_eq_takeLast {H : Nat} (hH : 0 < H) (A : List α) (e : α) :
    (if H < (A ++ [e]).length then pyLastSlice H (A ++ [e]) else A ++ [e])
      = takeLast H (A ++ [e]) := by
  by_cases h : H < (A ++ [e]).length
  · rw [if_pos h, pyLastSlice_pos hH]
  · rw [if_neg h, takeLast_of_length_le (by omega)]

/-! Basic facts about the association-list dict operations. -/

theorem lookupThread_update_self (ts : Threads) (t : String) (h : List Email) :
    lookupThread (updateThread ts t h) t = h := by
  induction ts with
  | nil => simp [updateThread, lookupThread]
  | cons p rest ih =>
    obtain ⟨k, v⟩ := p
    by_cases hk : k = t
    · simp [updateThread, hk, lookupThread]
    · simp [updateThread, hk, lookupThread, ih]

theorem lookupThread_update_ne (ts : Threads) {t t' : String} (h : List Email) (hne : t' ≠ t) :
    lookupThread (updateThread ts t h) t' = lookupThread ts t' := by
  induction ts with
  | nil => simp [updateThread, lookupThread, Ne.symm hne]
  | cons p rest ih =>
    obtain ⟨k, v⟩ := p
    by_cases hk : k = t
    · subst hk
      simp [updateThread, lookupThread, Ne.symm hne]
    · simp [updateThread, hk, lookupThread, ih]

theorem lookupThread_eq_nil_of_not_mem {ts : Threads} {t : String}
    (h : t ∉ ts.map Prod.fst) : lookupThread ts t = [] := by
  induction ts with
  | nil => rfl
  | cons p rest ih =>
    obtain ⟨k, v⟩ := p
    simp only [List.map_cons, List.mem_cons] at h
    push_neg at h
    have hk : ¬(k = t) := fun hc => h.1 hc.symm
    simp [lookupThread, hk, ih h.2]

theorem nodup_key_eq {ts : Threads} (hnd : (ts.map Prod.fst).Nodup)
    {t : String} {h h₂ : List Email} (m1 : (t, h) ∈ ts) (m2 : (t, h₂) ∈ ts) : h = h₂ := by
  induction ts with
  | nil => cases m1
  | cons p rest ih =>
    obtain ⟨k, v⟩ := p
    simp only [List.map_cons, List.nodup_cons] at hnd
    rcases List.mem_cons.mp m1 with e1 | mr1 <;> rcases List.mem_cons.mp m2 with e2 | mr2
    · rw [Prod.mk.injEq] at e1 e2
      rw [e1.2, e2.2]
    · rw [Prod.mk.injEq] at e1
      exact absurd (List.mem_map.mpr ⟨(t, h₂), mr2, e1.1⟩) hnd.1
    · rw [Prod.mk.injEq] at e2
      exact absurd (List.mem_map.mpr ⟨(t, h), mr1, e2.1⟩) hnd.1
    · exact ih hnd.2 mr1 mr2

theorem keys_filter_subset (ts : Threads) (q : String × List Email → Bool) {t : String}
    (ht : t ∈ (ts.filter q).map Prod.fst) : t ∈ ts.map Prod.fst := by
  obtain ⟨p, hp, rfl⟩ := List.mem_map.mp ht
  exact List.mem_map.mpr ⟨p, (List.mem_filter.mp hp).1, rfl⟩

theorem lookupThread_filter_key {ts : Threads} (q : String → Bool)
    (hnd : (ts.map Prod.fst).Nodup) {t : String} {h : List Email} (hmem : (t, h) ∈ ts) :
    lookupThread (ts.filter (fun p => q p.1)) t = if q t then h else [] := by
  induction ts with
  | nil => cases hmem
  | cons p rest ih =>
    obtain ⟨k, v⟩ := p
    simp only [List.map_cons, List.nodup_cons] at hnd
    rcases List.mem_cons.mp hmem with e1 | m1
    · rw [Prod.mk.injEq] at e1
      obtain ⟨h1, h2⟩ := e1
      subst h1
      subst h2
      by_cases hq : q t
      · rw [List.filter_cons_of_pos (by simpa using hq), if_pos hq]
        simp [lookupThread]
      · rw [List.filter_cons_of_neg (by simpa using hq), if_neg hq]
        refine lookupThread_eq_nil_of_not_mem fun hc => hnd.1 (keys_filter_subset _ _ hc)
    · have hkt : ¬(k = t) := by
        intro hc
        exact hnd.1 (List.mem_map.mpr ⟨(t, h), m1, hc.symm⟩)
      by_cases hq : q k
      · rw [List.filter_cons_of_pos (by simpa using hq)]
        simp only [lookupThread, if_neg hkt]
        exact ih hnd.2 m1
      · rw [List.filter_cons_of_neg (by simpa using hq)]
        exact ih hnd.2 m1

/-! Per-append behaviour of the JSON and mock providers. -/

theorem json_add_lookup {H : Nat} (hH : 0 < H) (ts : Threads) {t₀ : String} (e : Email)
    (ht : t₀ ≠ "") (t : String) :
    lookupThread (JsonProvider.add_email_to_thread H ts t₀ e).2 t
      = if t = t₀ then takeLast H (lookupThread ts t₀ ++ [e]) else lookupThread ts t := by
  have h1 : (JsonProvider.add_email_to_thread H ts t₀ e).2
      = updateThread ts t₀
          (if H < (lookupThread ts t₀ ++ [e]).length then pyLastSlice H (lookupThread ts t₀ ++ [e])
            else lookupThread ts t₀ ++ [e]) := by
    simp [JsonProvider.add_email_to_thread, ht]
  rw [h1]
  by_cases hc : t = t₀
  · subst hc
    rw [if_pos rfl, lookupThread_update_self, trim_eq_takeLast hH]
  · rw [if_neg hc, lookupThread_update_ne _ _ hc]

theorem mock_add_eq_json (H : Nat) (ts : Threads) {t₀ : String} (e : Email) (ht : t₀ ≠ "") :
    MockProvider.add_email_to_thread H ts t₀ e = JsonProvider.add_email_to_thread H ts t₀ e := by
  simp [MockProvider.add_email_to_thread, JsonProvider.add_email_to_thread, ht]

theorem foldl_mock_eq_json (H : Nat) :
    ∀ (appends : List (String × Email)) (init : Threads),
      (∀ p ∈ appends, p.1 ≠ "") →
      appends.foldl (mockStep H) init = appends.foldl (jsonStep H) init := by
  intro appends
  induction appends with
  | nil => intro init _; rfl
  | cons p rest ih =>
    intro init hkeys
    simp only [List.foldl_cons]
    have h1 : mockStep H init p = jsonStep H init p := by
      unfold mockStep jsonStep
      rw [mock_add_eq_json H init p.2 (hkeys p (List.mem_cons_self _ _))]
    rw [h1]
    exact ih _ fun q hq => hkeys q (List.mem_cons_of_mem _ hq)

/-! Per-append behaviour of the SQLite provider. -/

theorem threadRows_append (l₁ l₂ : List Row) (t : String) :
    threadRows (l₁ ++ l₂) t = threadRows l₁ t ++ threadRows l₂ t :=
  List.filter_append _ _

theorem threadRows_sublist (rows : List Row) (t : String) : (threadRows rows t).Sublist rows :=
  List.filter_sublist rows

theorem threadRows_singleton (r : Row) (t : String) :
    threadRows [r] t = if r.tid = t then [r] else [] := by
  by_cases h : r.tid = t <;> simp [threadRows, List.filter, h]

theorem filter_not_any_take (L : List Row) (k : Nat)
    (hnd : (L.map Row.id).Nodup) :
    L.filter (fun r => !((L.take k).any (fun v => decide (v.id = r.id)))) = L.drop k := by
  have h1 : (L.take k).filter (fun r => !((L.take k).any (fun v => decide (v.id = r.id)))) = [] := by
    rw [List.filter_eq_nil_iff]
    intro a ha
    have h2 : (L.take k).any (fun v => decide (v.id = a.id)) = true :=
      List.any_eq_true.mpr ⟨a, ha, by simp⟩
    simp [h2]
  have hdisj : List.Disjoint ((L.take k).map Row.id) ((L.drop k).map Row.id) := by
    refine List.disjoint_of_nodup_append ?_
    rw [← List.map_append, List.take_append_drop]
    exact hnd
  have h3 : (L.drop k).filter (fun r => !((L.take k).any (fun v => decide (v.id = r.id))))
      = L.drop k := by
    rw [List.filter_eq_self]
    intro a ha
    simp only [Bool.not_eq_true', List.any_eq_false, decide_eq_true_eq]
    intro v hv hc
    exact hdisj (List.mem_map.mpr ⟨v, hv, rfl⟩) (List.mem_map.mpr ⟨a, ha, hc.symm⟩)
  have h4 : (L.take k ++ L.drop k).filter
      (fun r => !((L.take k).any (fun v => decide (v.id = r.id)))) = L.drop k := by
    rw [List.filter_append, h1, h3, List.nil_append]
  rw [List.take_append_drop] at h4
  exact h4

theorem sorted_threadRows {rows : List Row}
    (hts : rows.Pairwise (fun a b => a.email.timestamp < b.email.timestamp)) (t : String) :
    List.insertionSort tsLE (threadRows rows t) = threadRows rows t := by
  refine List.Sorted.insertionSort_eq ?_
  exact (List.Pairwise.sublist (threadRows_sublist rows t) hts).imp Nat.le_of_lt

theorem trim_rows_spec {H : Nat} {rows : List Row} {t₀ : String}
    (hts : rows.Pairwise (fun a b => a.email.timestamp < b.email.timestamp))
    (hnd : (rows.map Row.id).Nodup) :
    ∀ t, threadRows (rows.filter (fun r => !(decide (r.tid = t₀) &&
        ((List.insertionSort tsLE (threadRows rows t₀)).take ((threadRows rows t₀).length - H)).any
          (fun v => decide (v.id = r.id))))) t
      = if t = t₀ then (threadRows rows t₀).drop ((threadRows rows t₀).length - H)
        else threadRows rows t := by
  intro t
  rw [sorted_threadRows hts]
  unfold threadRows
  rw [List.filter_filter]
  by_cases hc : t = t₀
  · subst hc
    have hcongr : rows.filter (fun a => decide (a.tid = t) && (!(decide (a.tid = t) &&
          ((rows.filter (fun r => decide (r.tid = t))).take
              ((rows.filter (fun r => decide (r.tid = t))).length - H)).any
            (fun v => decide (v.id = a.id)))))
        = (rows.filter (fun r => decide (r.tid = t))).filter (fun a =>
            !(((rows.filter (fun r => decide (r.tid = t))).take
              ((rows.filter (fun r => decide (r.tid = t))).length - H)).any
            (fun v => decide (v.id = a.id)))) := by
      rw [List.filter_filter]
      refine List.filter_congr ?_
      intro a ha
      by_cases hd : a.tid = t <;> simp [hd]
    rw [if_pos rfl, hcongr]
    refine filter_not_any_take _ _ ?_
    exact List.Nodup.sublist (List.Sublist.map Row.id (List.filter_sublist rows)) hnd
  · rw [if_neg hc]
    refine List.filter_congr ?_
    intro a ha
    by_cases hd : a.tid = t
    · simp [hd, hc]
    · simp [hd]

theorem sql_add_step {H : Nat} (hH : 0 < H) {st : SqlState} {hist : String → List Email}
    {bound : Nat} (hinv : SqlAbs st hist bound) {t₀ : String} (e : Email)
    (ht : t₀ ≠ "") (hb : bound ≤ e.timestamp) :
    SqlAbs (SqliteProvider.add_email_to_thread H st t₀ e).2
      (fun t => if t = t₀ then takeLast H (hist t₀ ++ [e]) else hist t)
      (e.timestamp + 1) := by
  obtain ⟨hproj, htsS, htsL, hidS, hidL⟩ := hinv
  have hts1 : (st.rows ++ [Row.mk st.nextId t₀ e]).Pairwise
      (fun a b => a.email.timestamp < b.email.timestamp) := by
    rw [List.pairwise_append]
    refine ⟨htsS, List.pairwise_singleton _ _, ?_⟩
    intro a ha b hb2
    rw [List.mem_singleton] at hb2
    subst hb2
    exact lt_of_lt_of_le (htsL a ha) hb
  have hid1 : (st.rows ++ [Row.mk st.nextId t₀ e]).Pairwise (fun a b => a.id < b.id) := by
    rw [List.pairwise_append]
    refine ⟨hidS, List.pairwise_singleton _ _, ?_⟩
    intro a ha b hb2
    rw [List.mem_singleton] at hb2
    subst hb2
    exact hidL a ha
  have hnd1 : ((st.rows ++ [Row.mk st.nextId t₀ e]).map Row.id).Nodup := by
    have h5 : ((st.rows ++ [Row.mk st.nextId t₀ e]).map Row.id).Pairwise (· ≠ ·) := by
      rw [List.pairwise_map]
      exact hid1.imp Nat.ne_of_lt
    exact h5
  have hmemTs : ∀ r ∈ st.rows ++ [Row.mk st.nextId t₀ e], r.email.timestamp < e.timestamp + 1 := by
    intro r hr
    rcases List.mem_append.mp hr with h | h
    · exact lt_of_lt_of_le (htsL r h) (Nat.le_succ_of_le hb)
    · rw [List.mem_singleton] at h
      subst h
      exact Nat.lt_succ_self _
  have hmemId : ∀ r ∈ st.rows ++ [Row.mk st.nextId t₀ e], r.id < st.nextId + 1 := by
    intro r hr
    rcases List.mem_append.mp hr with h | h
    · exact Nat.lt_succ_of_lt (hidL r h)
    · rw [List.mem_singleton] at h
      subst h
      exact Nat.lt_succ_self _
  have hrows1 : ∀ t, threadRows (st.rows ++ [Row.mk st.nextId t₀ e]) t
      = threadRows st.rows t ++ (if t = t₀ then [Row.mk st.nextId t₀ e] else []) := by
    intro t
    rw [threadRows_append, threadRows_singleton]
    congr 1
    by_cases hc : t = t₀
    · rw [if_pos hc.symm, if_pos hc]
    · rw [if_neg fun h2 => hc h2.symm, if_neg hc]
  have hproj1 : ∀ t, (threadRows (st.rows ++ [Row.mk st.nextId t₀ e]) t).map Row.email
      = hist t ++ (if t = t₀ then [e] else []) := by
    intro t
    rw [hrows1, List.map_append, hproj]
    congr 1
    by_cases hc : t = t₀ <;> simp [hc]
  have hlen1 : (threadRows (st.rows ++ [Row.mk st.nextId t₀ e]) t₀).length
      = (hist t₀ ++ [e]).length := by
    have h6 := congrArg List.length (hproj1 t₀)
    rw [List.length_map, if_pos rfl] at h6
    exact h6
  simp only [SqliteProvider.add_email_to_thread, if_neg ht]
  by_cases hcnt : H < (threadRows (st.rows ++ [Row.mk st.nextId t₀ e]) t₀).length
  · rw [if_pos hcnt]
    refine ⟨?_, ?_, ?_, ?_, ?_⟩
    · intro t
      have h7 := @trim_rows_spec H (st.rows ++ [Row.mk st.nextId t₀ e]) t₀ hts1 hnd1 t
      simp only [] at h7 ⊢
      rw [h7]
      by_cases hc : t = t₀
      · subst hc
        rw [if_pos rfl, if_pos rfl, List.map_drop, hproj1 t, if_pos rfl]
        rw [takeLast_eq_drop]
        congr 1
        rw [← hlen1]
      · rw [if_neg hc, if_neg hc, hproj1 t, if_neg hc, List.append_nil]
    · exact List.Pairwise.sublist (List.filter_sublist _) hts1
    · intro r hr
      exact hmemTs r (List.mem_filter.mp hr).1
    · exact List.Pairwise.sublist (List.filter_sublist _) hid1
    · intro r hr
      exact hmemId r (List.mem_filter.mp hr).1
  · rw [if_neg hcnt]
    refine ⟨?_, ?_, ?_, ?_, ?_⟩
    · intro t
      rw [hproj1 t]
      by_cases hc : t = t₀
      · subst hc
        rw [if_pos rfl, if_pos rfl]
        refine (takeLast_of_length_le ?_).symm
        omega
      · rw [if_neg hc, if_neg hc, List.append_nil]
    · exact hts1
    · exact hmemTs
    · exact hid1
    · exact hmemId

theorem hist_shift (H : Nat) (hist : String → List Email) (t₀ : String) (e : Email)
    (rest : List (String × Email)) (t : String) :
    takeLast H ((if t = t₀ then takeLast H (hist t₀ ++ [e]) else hist t) ++ appendsTo t rest)
      = takeLast H (hist t ++ appendsTo t ((t₀, e) :: rest)) := by
  by_cases hc : t = t₀
  · subst hc
    rw [if_pos rfl, takeLast_append_left]
    have h1 : appendsTo t ((t, e) :: rest) = e :: appendsTo t rest := by
      simp [appendsTo]
    rw [h1, List.append_assoc, List.singleton_append]
  · rw [if_neg hc]
    have hne : ¬(t₀ = t) := fun h2 => hc h2.symm
    have h1 : appendsTo t ((t₀, e) :: rest) = appendsTo t rest := by
      simp [appendsTo, hne]
    rw [h1]

theorem run_invariant {H : Nat} (hH : 0 < H) :
    ∀ (appends : List (String × Email)) (ts : Threads) (st : SqlState)
      (hist : String → List Email) (bound : Nat),
      (∀ t, lookupThread ts t = hist t) →
      (∀ t, (hist t).length ≤ H) →
      SqlAbs st hist bound →
      (∀ p ∈ appends, p.1 ≠ "") →
      ((appends.map (fun p => p.2.timestamp)).Pairwise (· < ·)) →
      (∀ p ∈ appends, bound ≤ p.2.timestamp) →
      (∀ t, lookupThread (appends.foldl (jsonStep H) ts) t
          = takeLast H (hist t ++ appendsTo t appends))
        ∧ ∃ bound₂, SqlAbs (appends.foldl (sqlStep H) st)
            (fun t => takeLast H (hist t ++ appendsTo t appends)) bound₂ := by
  intro appends
  induction appends with
  | nil =>
    intro ts st hist bound hj hlen habs hkeys htsp hbd
    have hfix : ∀ t, takeLast H (hist t ++ appendsTo t []) = hist t := by
      intro t
      simp [appendsTo, takeLast_of_length_le (hlen t)]
    constructor
    · intro t
      simp only [List.foldl_nil]
      rw [hj t]
      exact (hfix t).symm
    · refine ⟨bound, ?_⟩
      have hfun : (fun t => takeLast H (hist t ++ appendsTo t [])) = hist := funext hfix
      simp only [List.foldl_nil]
      rw [hfun]
      exact habs
  | cons p rest ih =>
    intro ts st hist bound hj hlen habs hkeys htsp hbd
    obtain ⟨t₀, e⟩ := p
    have ht₀ : t₀ ≠ "" := hkeys (t₀, e) (List.mem_cons_self _ _)
    have hb : bound ≤ e.timestamp := hbd (t₀, e) (List.mem_cons_self _ _)
    have hj₂ : ∀ t, lookupThread (jsonStep H ts (t₀, e)) t
        = (fun t => if t = t₀ then takeLast H (hist t₀ ++ [e]) else hist t) t := by
      intro t
      unfold jsonStep
      rw [json_add_lookup hH ts e ht₀ t]
      simp only []
      by_cases hc : t = t₀
      · rw [if_pos hc, if_pos hc, hj t₀]
      · rw [if_neg hc, if_neg hc, hj t]
    have hlen₂ : ∀ t, ((fun t => if t = t₀ then takeLast H (hist t₀ ++ [e]) else hist t) t).length ≤ H := by
      intro t
      by_cases hc : t = t₀
      · simp only [if_pos hc]
        exact takeLast_length_le _ _
      · simp only [if_neg hc]
        exact hlen t
    have habs₂ := sql_add_step hH ⟨habs.proj, habs.tsSorted, habs.tsLt, habs.idSorted, habs.idLt⟩ e ht₀ hb
    have hkeys₂ : ∀ q ∈ rest, q.1 ≠ "" := fun q hq => hkeys q (List.mem_cons_of_mem _ hq)
    rw [List.map_cons, List.pairwise_cons] at htsp
    have hbd₂ : ∀ q ∈ rest, e.timestamp + 1 ≤ q.2.timestamp := by
      intro q hq
      exact htsp.1 q.2.timestamp (List.mem_map.mpr ⟨q, hq, rfl⟩)
    have hmain := ih (jsonStep H ts (t₀, e)) (sqlStep H st (t₀, e))
      (fun t => if t = t₀ then takeLast H (hist t₀ ++ [e]) else hist t) (e.timestamp + 1)
      hj₂ hlen₂ habs₂ hkeys₂ htsp.2 hbd₂
    constructor
    · intro t
      simp only [List.foldl_cons]
      rw [hmain.1 t, hist_shift]
    · obtain ⟨bound₂, habs₃⟩ := hmain.2
      refine ⟨bound₂, ?_⟩
      have hfix : (fun t => takeLast H ((if t = t₀ then takeLast H (hist t₀ ++ [e]) else hist t)
            ++ appendsTo t rest))
          = (fun t => takeLast H (hist t ++ appendsTo t ((t₀, e) :: rest))) := by
        funext t
        exact hist_shift H hist t₀ e rest t
      simp only [List.foldl_cons]
      exact hfix ▸ habs₃

theorem sql_get_history_of_abs {H : Nat} {st : SqlState} {hist : String → List Email}
    {bound : Nat} (habs : SqlAbs st hist bound) (hlen : ∀ t, (hist t).length ≤ H)
    {t : String} (ht : t ≠ "") :
    SqliteProvider.get_thread_history H st t = hist t := by
  unfold SqliteProvider.get_thread_history
  rw [if_neg ht, sorted_threadRows habs.tsSorted]
  have hL : (threadRows st.rows t).length ≤ H := by
    have h1 := congrArg List.length (habs.proj t)
    rw [List.length_map] at h1
    rw [h1]
    exact hlen t
  rw [List.take_of_length_le hL, habs.proj t]

theorem run_spec {H : Nat} (hH : 0 < H) (appends : List (String × Email))
    (hkeys : ∀ p ∈ appends, p.1 ≠ "")
    (htsp : (appends.map (fun p => p.2.timestamp)).Pairwise (· < ·)) :
    (∀ t, lookupThread (jsonRun H appends) t = takeLast H (appendsTo t appends))
    ∧ (∀ t, lookupThread (mockRun H appends) t = takeLast H (appendsTo t appends))
    ∧ (∀ t, (threadRows (sqlRun H appends).rows t).map Row.email
        = takeLast H (appendsTo t appends))
    ∧ (∀ t, t ≠ "" → SqliteProvider.get_thread_history H (sqlRun H appends) t
        = takeLast H (appendsTo t appends)) := by
  have habs0 : SqlAbs ⟨[], 0⟩ (fun _ => []) 0 := by
    refine ⟨?_, ?_, ?_, ?_, ?_⟩
    · intro t
      simp [threadRows]
    · exact List.Pairwise.nil
    · intro r hr
      cases hr
    · exact List.Pairwise.nil
    · intro r hr
      cases hr
  have hmain := run_invariant hH appends [] ⟨[], 0⟩ (fun _ => []) 0
    (fun t => rfl) (fun t => by simp) habs0 hkeys htsp (fun p hp => Nat.zero_le _)
  have hnil : ∀ t, (([] : List Email) ++ appendsTo t appends) = appendsTo t appends := by
    intro t
    exact List.nil_append _
  obtain ⟨hjson, bound₂, habs₂⟩ := hmain
  have hsql : ∀ t, (threadRows (sqlRun H appends).rows t).map Row.email
      = takeLast H (appendsTo t appends) := by
    intro t
    have h1 := habs₂.proj t
    rw [hnil t] at h1
    exact h1
  refine ⟨?_, ?_, hsql, ?_⟩
  · intro t
    have h1 := hjson t
    rw [hnil t] at h1
    exact h1
  · intro t
    unfold mockRun
    rw [foldl_mock_eq_json H appends [] hkeys]
    have h1 := hjson t
    rw [hnil t] at h1
    exact h1
  · intro t ht
    have h2 : ∀ t, ((fun t => takeLast H (([] : List Email) ++ appendsTo t appends)) t).length ≤ H := by
      intro t
      exact takeLast_length_le _ _
    have h3 := sql_get_history_of_abs habs₂ h2 ht
    simp only [List.nil_append] at h3
    exact h3

/-! Cleanup characterization. -/

theorem mem_staleKeys_iff {threads : Threads} (hnd : (threads.map Prod.fst).Nodup)
    {t : String} {h : List Email} (hmem : (t, h) ∈ threads) (cutoff : Nat) :
    t ∈ (threads.filter (fun p => staleThread cutoff p.2)).map Prod.fst
      ↔ staleThread cutoff h = true := by
  constructor
  · intro hm
    obtain ⟨p, hp, hfst⟩ := List.mem_map.mp hm
    obtain ⟨hpmem, hps⟩ := List.mem_filter.mp hp
    have hpe : p = (t, p.2) := by
      rw [← hfst]
    rw [hpe] at hpmem hps
    have heq : h = p.2 := nodup_key_eq hnd hmem hpmem
    rw [heq]
    exact hps
  · intro hs
    exact List.mem_map.mpr ⟨(t, h), List.mem_filter.mpr ⟨hmem, hs⟩, rfl⟩

theorem json_cleanup_lookup {threads : Threads} (hnd : (threads.map Prod.fst).Nodup)
    (now days_old : Nat) {t : String} {h : List Email} (hmem : (t, h) ∈ threads) :
    lookupThread (JsonProvider.cleanup_old_threads now days_old threads).1 t
      = if staleThread (now - days_old) h then [] else h := by
  unfold JsonProvider.cleanup_old_threads
  simp only []
  rw [lookupThread_filter_key
    (fun k => !(decide (k ∈ (threads.filter
      (fun p => staleThread (now - days_old) p.2)).map Prod.fst))) hnd hmem]
  by_cases hs : staleThread (now - days_old) h
  · rw [if_pos hs]
    have hm := (mem_staleKeys_iff hnd hmem (now - days_old)).mpr hs
    simp [hm]
  · rw [if_neg hs]
    have hm : t ∉ (threads.filter (fun p => staleThread (now - days_old) p.2)).map Prod.fst :=
      fun hc => hs ((mem_staleKeys_iff hnd hmem (now - days_old)).mp hc)
    simp [hm]

theorem sql_cleanup_mem (now days_old : Nat) (st : SqlState) (r : Row) :
    r ∈ (SqliteProvider.cleanup_old_threads now days_old st).1.rows
      ↔ r ∈ st.rows ∧
        ¬(newest_timestamp ((threadRows st.rows r.tid).map Row.email) < now - days_old) := by
  unfold SqliteProvider.cleanup_old_threads
  simp only []
  constructor
  · intro hr
    obtain ⟨hrm, hb⟩ := List.mem_filter.mp hr
    refine ⟨hrm, ?_⟩
    intro hcond
    rw [Bool.not_eq_true', decide_eq_false_iff_not] at hb
    refine hb (List.mem_filter.mpr ⟨List.mem_dedup.mpr (List.mem_map.mpr ⟨r, hrm, rfl⟩), ?_⟩)
    simpa using hcond
  · intro hpair
    obtain ⟨hrm, hcond⟩ := hpair
    refine List.mem_filter.mpr ⟨hrm, ?_⟩
    rw [Bool.not_eq_true', decide_eq_false_iff_not]
    intro hmem
    refine hcond ?_
    simpa using (List.mem_filter.mp hmem).2

/-! Stats and transcript formatting. -/

theorem stats_json_eq_mock (H : Nat) (threads : Threads) :
    JsonProvider.get_storage_stats H threads = MockProvider.get_storage_stats H threads := by
  by_cases h : threads = []
  · subst h
    rfl
  · unfold JsonProvider.get_storage_stats MockProvider.get_storage_stats
    rw [if_neg h]

theorem foldl_emailBlocks (hist : List Email) :
    ∀ acc : List String, hist.foldl (fun acc e => acc ++ emailBlock e) acc
      = acc ++ (hist.map emailBlock).flatten := by
  induction hist with
  | nil =>
    intro acc
    simp
  | cons e rest ih =>
    intro acc
    simp only [List.foldl_cons, List.map_cons, List.flatten_cons]
    rw [ih, List.append_assoc]

theorem emailBlocks_length (hist : List Email) :
    ((hist.map emailBlock).flatten).length = 4 * hist.length := by
  induction hist with
  | nil => simp
  | cons e rest ih =>
    simp only [List.map_cons, List.flatten_cons, List.length_append, ih, List.length_cons]
    simp [emailBlock]
    omega

/-! Cross-backend parity on the decoded SQLite state. -/

theorem length_filter_map (f : α → β) (p : β → Bool) (l : List α) :
    ((l.map f).filter p).length = (l.filter (fun a => p (f a))).length := by
  induction l with
  | nil => rfl
  | cons a rest ih =>
    by_cases h : p (f a)
    · simp [List.filter_cons, h, ih]
    · simp [List.filter_cons, h, ih]

theorem length_filter_split (p : α → Bool) (l : List α) :
    (l.filter p).length + (l.filter (fun a => !(p a))).length = l.length := by
  induction l with
  | nil => rfl
  | cons a rest ih =>
    by_cases h : p a
    · simp [List.filter_cons, h]
      omega
    · simp [List.filter_cons, h]
      omega

theorem threadRows_eq_nil_of_not_mem {rows : List Row} {t : String}
    (h : t ∉ rows.map Row.tid) : threadRows rows t = [] := by
  unfold threadRows
  rw [List.filter_eq_nil_iff]
  intro r hr
  simp only [decide_eq_true_eq]
  intro hc
  exact h (List.mem_map.mpr ⟨r, hr, hc⟩)

theorem sum_threadRows_length :
    ∀ (D : List String) (rows : List Row), D.Nodup → (∀ r ∈ rows, r.tid ∈ D) →
      (D.map (fun t => (threadRows rows t).length)).sum = rows.length := by
  intro D
  induction D with
  | nil =>
    intro rows hnd hcov
    cases rows with
    | nil => rfl
    | cons r rest => exact absurd (hcov r (List.mem_cons_self _ _)) (List.not_mem_nil _)
  | cons t D₂ ih =>
    intro rows hnd hcov
    rw [List.nodup_cons] at hnd
    have hsplit := length_filter_split (fun r => decide (r.tid = t)) rows
    have hcov₂ : ∀ r ∈ rows.filter (fun r => !(decide (r.tid = t))), r.tid ∈ D₂ := by
      intro r hr
      obtain ⟨hm, hb⟩ := List.mem_filter.mp hr
      rw [Bool.not_eq_true', decide_eq_false_iff_not] at hb
      rcases List.mem_cons.mp (hcov r hm) with hc | hc
      · exact absurd hc hb
      · exact hc
    have hterm : ∀ u ∈ D₂, threadRows rows u
        = threadRows (rows.filter (fun r => !(decide (r.tid = t)))) u := by
      intro u hu
      have hne : u ≠ t := fun hc => hnd.1 (hc ▸ hu)
      unfold threadRows
      rw [List.filter_filter]
      refine List.filter_congr ?_
      intro a ha
      by_cases hd : a.tid = u
      · simp [hd, hne]
      · simp [hd]
    calc ((t :: D₂).map (fun u => (threadRows rows u).length)).sum
        = (threadRows rows t).length + (D₂.map (fun u => (threadRows rows u).length)).sum := by
          simp [List.sum_cons]
      _ = (threadRows rows t).length + (D₂.map (fun u =>
            (threadRows (rows.filter (fun r => !(decide (r.tid = t)))) u).length)).sum := by
          congr 1
          refine congrArg List.sum ?_
          refine List.map_congr_left ?_
          intro u hu
          rw [hterm u hu]
      _ = (threadRows rows t).length + (rows.filter (fun r => !(decide (r.tid = t)))).length := by
          rw [ih _ hnd.2 hcov₂]
      _ = rows.length := by
          have hthr : threadRows rows t = rows.filter (fun r => decide (r.tid = t)) := rfl
          rw [hthr]
          omega

theorem sqlThreads_keys (st : SqlState) :
    (sqlThreads st).map Prod.fst = (st.rows.map Row.tid).dedup := by
  unfold sqlThreads
  rw [List.map_map]
  exact List.map_id _

theorem sqlThreads_keys_nodup (st : SqlState) : ((sqlThreads st).map Prod.fst).Nodup := by
  rw [sqlThreads_keys]
  exact List.nodup_dedup _

theorem threadRows_ne_nil_of_mem_dedup {st : SqlState} {t : String}
    (ht : t ∈ (st.rows.map Row.tid).dedup) : threadRows st.rows t ≠ [] := by
  have hmem : t ∈ st.rows.map Row.tid := List.mem_dedup.mp ht
  obtain ⟨r, hr, hrt⟩ := List.mem_map.mp hmem
  have hmem2 : r ∈ threadRows st.rows t := List.mem_filter.mpr ⟨hr, by simp [hrt]⟩
  intro hc
  rw [hc] at hmem2
  exact List.not_mem_nil r hmem2

theorem staleThread_sql {st : SqlState} {t : String} (cutoff : Nat)
    (ht : t ∈ (st.rows.map Row.tid).dedup) :
    staleThread cutoff ((threadRows st.rows t).map Row.email)
      = decide (newest_timestamp ((threadRows st.rows t).map Row.email) < cutoff) := by
  have hne := threadRows_ne_nil_of_mem_dedup ht
  cases hx : threadRows st.rows t with
  | nil => exact absurd hx hne
  | cons r rest => simp [staleThread, hx]

theorem sql_stats_eq_json (H : Nat) (st : SqlState) :
    SqliteProvider.get_storage_stats H st = JsonProvider.get_storage_stats H (sqlThreads st) := by
  have hnd : ((st.rows.map Row.tid).dedup).Nodup := List.nodup_dedup _
  have hcov : ∀ r ∈ st.rows, r.tid ∈ (st.rows.map Row.tid).dedup := fun r hr =>
    List.mem_dedup.mpr (List.mem_map.mpr ⟨r, hr, rfl⟩)
  by_cases hrows : st.rows = []
  · have h0 : sqlThreads st = [] := by
      simp [sqlThreads, hrows]
    rw [h0]
    simp [SqliteProvider.get_storage_stats, JsonProvider.get_storage_stats, hrows, threadRows]
  · have hne : sqlThreads st ≠ [] := by
      unfold sqlThreads
      intro hc
      rw [List.map_eq_nil_iff, List.dedup_eq_nil, List.map_eq_nil_iff] at hc
      exact hrows hc
    unfold SqliteProvider.get_storage_stats JsonProvider.get_storage_stats
    rw [if_neg hne]
    simp only [StatsCounts.mk.injEq]
    refine ⟨?_, ?_, ?_, ?_, ?_, ?_⟩
    · rw [sqlThreads]
      rw [List.length_map]
    · unfold sqlThreads
      rw [List.map_map]
      have hmm : ((fun p : String × List Email => p.2.length) ∘
            (fun t => (t, (threadRows st.rows t).map Row.email)))
          = fun t => (threadRows st.rows t).length := by
        funext u
        simp [List.length_map]
      rw [hmm, sum_threadRows_length _ _ hnd hcov]
    · unfold sqlThreads
      rw [length_filter_map]
      refine congrArg List.length (List.filter_congr ?_)
      intro u hu
      simp [List.length_map]
    · unfold sqlThreads
      rw [length_filter_map]
      refine congrArg List.length (List.filter_congr ?_)
      intro u hu
      simp [List.length_map]
    · unfold sqlThreads
      rw [List.map_map]
      have hmm : ((fun p : String × List Email => (p.2.filter (fun e => e.is_bot_reply)).length) ∘
            (fun t => (t, (threadRows st.rows t).map Row.email)))
          = fun t => (threadRows (st.rows.filter (fun r => r.email.is_bot_reply)) t).length := by
        funext u
        simp only [Function.comp]
        rw [length_filter_map]
        unfold threadRows
        rw [List.filter_comm]
      rw [hmm, sum_threadRows_length _ _ hnd ?_]
      intro r hr
      exact hcov r (List.mem_filter.mp hr).1
    · unfold sqlThreads
      rw [List.map_map]
      have hmm : ((fun p : String × List Email => (p.2.filter (fun e => !e.is_bot_reply)).length) ∘
            (fun t => (t, (threadRows st.rows t).map Row.email)))
          = fun t => (threadRows (st.rows.filter (fun r => !r.email.is_bot_reply)) t).length := by
        funext u
        simp only [Function.comp]
        rw [length_filter_map]
        unfold threadRows
        rw [List.filter_comm]
      rw [hmm, sum_threadRows_length _ _ hnd ?_]
      · have hsplit := length_filter_split (fun r => r.email.is_bot_reply) st.rows
        omega
      · intro r hr
        exact hcov r (List.mem_filter.mp hr).1

theorem sql_cleanup_count_eq_json (now days_old : Nat) (st : SqlState) :
    (JsonProvider.cleanup_old_threads now days_old (sqlThreads st)).2
      = (SqliteProvider.cleanup_old_threads now days_old st).2 := by
  unfold JsonProvider.cleanup_old_threads SqliteProvider.cleanup_old_threads
  simp only [List.length_map]
  conv_lhs => rw [sqlThreads]
  rw [length_filter_map]
  refine congrArg List.length (List.filter_congr ?_)
  intro u hu
  exact staleThread_sql (now - days_old) hu

theorem sql_cleanup_state_eq_json (now days_old : Nat) (st : SqlState) (u : String) :
    lookupThread (JsonProvider.cleanup_old_threads now days_old (sqlThreads st)).1 u
      = (threadRows (SqliteProvider.cleanup_old_threads now days_old st).1.rows u).map Row.email := by
  have hrhs : threadRows (SqliteProvider.cleanup_old_threads now days_old st).1.rows u
      = st.rows.filter (fun a => decide (a.tid = u)
          && !(decide (a.tid ∈ (st.rows.map Row.tid).dedup.filter (fun v => decide
            (newest_timestamp ((threadRows st.rows v).map Row.email) < now - days_old))))) := by
    unfold SqliteProvider.cleanup_old_threads threadRows
    rw [List.filter_filter]
  by_cases hD : u ∈ (st.rows.map Row.tid).dedup
  · have hmem : (u, (threadRows st.rows u).map Row.email) ∈ sqlThreads st :=
      List.mem_map.mpr ⟨u, hD, rfl⟩
    have hlook := json_cleanup_lookup (sqlThreads_keys_nodup st) now days_old hmem
    rw [staleThread_sql (now - days_old) hD] at hlook
    by_cases hstale : newest_timestamp ((threadRows st.rows u).map Row.email) < now - days_old
    · rw [hlook, if_pos (by simpa using hstale), hrhs]
      have hnil : st.rows.filter (fun a => decide (a.tid = u)
          && !(decide (a.tid ∈ (st.rows.map Row.tid).dedup.filter (fun v => decide
            (newest_timestamp ((threadRows st.rows v).map Row.email) < now - days_old))))) = [] := by
        rw [List.filter_eq_nil_iff]
        intro a ha
        by_cases hd : a.tid = u
        · have hin : a.tid ∈ (st.rows.map Row.tid).dedup.filter (fun v => decide
              (newest_timestamp ((threadRows st.rows v).map Row.email) < now - days_old)) := by
            refine List.mem_filter.mpr ⟨?_, ?_⟩
            · rw [hd]
              exact hD
            · rw [hd]
              simpa using hstale
          intro hc
          rw [Bool.and_eq_true] at hc
          obtain ⟨hc1, hc2⟩ := hc
          rw [Bool.not_eq_true', decide_eq_false_iff_not] at hc2
          exact hc2 hin
        · simp [hd]
      rw [hnil]
      rfl
    · rw [hlook, if_neg (by simpa using hstale), hrhs]
      have hsame : st.rows.filter (fun a => decide (a.tid = u)
          && !(decide (a.tid ∈ (st.rows.map Row.tid).dedup.filter (fun v => decide
            (newest_timestamp ((threadRows st.rows v).map Row.email) < now - days_old)))))
          = threadRows st.rows u := by
        have hthr : threadRows st.rows u = st.rows.filter (fun r => decide (r.tid = u)) := rfl
        rw [hthr]
        refine List.filter_congr ?_
        intro a ha
        show (decide (a.tid = u) && !(decide (a.tid ∈ (st.rows.map Row.tid).dedup.filter
            (fun v => decide (newest_timestamp ((threadRows st.rows v).map Row.email)
              < now - days_old)))))
          = decide (a.tid = u)
        by_cases hd : a.tid = u
        · have hout : a.tid ∉ (st.rows.map Row.tid).dedup.filter (fun v => decide
              (newest_timestamp ((threadRows st.rows v).map Row.email) < now - days_old)) := by
            intro hc
            have hcc := (List.mem_filter.mp hc).2
            rw [hd] at hcc
            exact hstale (by simpa using hcc)
          cases hb : decide (a.tid ∈ (st.rows.map Row.tid).dedup.filter (fun v => decide
              (newest_timestamp ((threadRows st.rows v).map Row.email) < now - days_old))) with
          | false => simp
          | true =>
            rw [decide_eq_true_eq] at hb
            exact absurd hb hout
        · simp [hd]
      rw [hsame]
  · have hkeys : u ∉ (sqlThreads st).map Prod.fst := by
      rw [sqlThreads_keys]
      exact hD
    have hlhs : lookupThread (JsonProvider.cleanup_old_threads now days_old (sqlThreads st)).1 u
        = [] := by
      refine lookupThread_eq_nil_of_not_mem ?_
      unfold JsonProvider.cleanup_old_threads
      intro hc
      exact hkeys (keys_filter_subset _ _ hc)
    have hnorows : u ∉ st.rows.map Row.tid := fun hc => hD (List.mem_dedup.mpr hc)
    rw [hlhs, hrhs]
    have hnil : st.rows.filter (fun a => decide (a.tid = u)
        && !(decide (a.tid ∈ (st.rows.map Row.tid).dedup.filter (fun v => decide
          (newest_timestamp ((threadRows st.rows v).map Row.email) < now - days_old))))) = [] := by
      rw [List.filter_eq_nil_iff]
      intro a ha
      by_cases hd : a.tid = u
      · exact absurd (List.mem_map.mpr ⟨a, ha, hd⟩) hnorows
      · simp [hd]
    rw [hnil]
    rfl

/-! The claims. -/

/-- C1: cap invariant — after any sequence of appends through
AppendRecord from the empty store (nonempty thread keys, strictly
increasing Facade-assigned timestamps, positive configured cap H), every
thread on every backend holds at most H records, and exactly the H most
recently appended ones in append order; identically for the JSON,
SQLite and in-memory backends. -/
theorem C1_cap_invariant (H : Nat) (appends : List (String × Email)) (t : String)
    (hH : 0 < H)
    (hkeys : ∀ p ∈ appends, p.1 ≠ "")
    (htsp : (appends.map (fun p => p.2.timestamp)).Pairwise (· < ·)) :
    (lookupThread (jsonRun H appends) t).length ≤ H
    ∧ lookupThread (jsonRun H appends) t = takeLast H (appendsTo t appends)
    ∧ lookupThread (mockRun H appends) t = takeLast H (appendsTo t appends)
    ∧ (threadRows (sqlRun H appends).rows t).map Row.email = takeLast H (appendsTo t appends)
    ∧ (threadRows (sqlRun H appends).rows t).length ≤ H := by
  obtain ⟨hj, hm, hs, hg⟩ := run_spec hH appends hkeys htsp
  refine ⟨?_, hj t, hm t, hs t, ?_⟩
  · rw [hj t]
    exact takeLast_length_le _ _
  · have h1 := congrArg List.length (hs t)
    rw [List.length_map] at h1
    rw [h1]
    exact takeLast_length_le _ _

/-- C1 witness: with H = 2, appending A, B, C to thread t1 leaves the
history [B, C] on every backend, and appending D then leaves [C, D]. -/
theorem C1_cap_invariant_witness :
    ((0 : Nat) < 2
      ∧ (∀ p ∈ ap4, p.1 ≠ "")
      ∧ (ap4.map (fun p => p.2.timestamp)).Pairwise (· < ·))
    ∧ ((lookupThread (jsonRun 2 ap4) "t1").length ≤ 2
      ∧ lookupThread (jsonRun 2 ap4) "t1" = takeLast 2 (appendsTo "t1" ap4)
      ∧ lookupThread (mockRun 2 ap4) "t1" = takeLast 2 (appendsTo "t1" ap4)
      ∧ (threadRows (sqlRun 2 ap4).rows "t1").map Row.email = takeLast 2 (appendsTo "t1" ap4)
      ∧ (threadRows (sqlRun 2 ap4).rows "t1").length ≤ 2)
    ∧ lookupThread (jsonRun 2 ap3) "t1" = [eB, eC]
    ∧ lookupThread (jsonRun 2 ap4) "t1" = [eC, eD]
    ∧ SqliteProvider.get_thread_history 2 (sqlRun 2 ap3) "t1" = [eB, eC]
    ∧ SqliteProvider.get_thread_history 2 (sqlRun 2 ap4) "t1" = [eC, eD]
    ∧ lookupThread (mockRun 2 ap4) "t1" = [eC, eD] :=
  ⟨⟨by decide, by decide, by decide⟩,
    C1_cap_invariant 2 ap4 "t1" (by decide) (by decide) (by decide),
    by decide, by decide, by decide, by decide, by decide⟩

/-- C2 counterexample: with configured cap H = 1 and a stored state
holding two records for thread t (which SaveAll persists untrimmed), the
JSON and mock GetHistory return both records — more than H — and the
SQLite GetHistory returns the oldest record, not the most recent one. -/
theorem C2_counterexample :
    (JsonProvider.save_threads ⟨none, none, []⟩ overCapThreads SaveFail.noFail none).1.main
        = some (FileContent.valid overCapThreads)
    ∧ (JsonProvider.get_thread_history overCapThreads "t").length = 2
    ∧ ¬((JsonProvider.get_thread_history overCapThreads "t").length ≤ 1)
    ∧ (MockProvider.get_thread_history overCapThreads "t").length = 2
    ∧ SqliteProvider.get_thread_history 1 overCapSql "t" = [eA]
    ∧ takeLast 1 (appendsTo "t" [("t", eA), ("t", eB)]) = [eB]
    ∧ eA ≠ eB :=
  ⟨rfl, by decide, by decide, by decide, by decide, by decide, by decide⟩

/-- C2 amended: GetHistory returns the empty sequence for a thread key
absent from the store; on any state reached by appends it returns the
thread's at most H records — the H most recently appended, oldest
first — on all backends.  On stored states with more than H records for
a thread (as SaveAll can produce) JSON and mock return the full stored
history and SQLite returns the H oldest records (see the
counterexample). -/
theorem C2_amended_get_history (H : Nat) (appends : List (String × Email))
    (ts2 : Threads) (t u : String)
    (hH : 0 < H)
    (hkeys : ∀ p ∈ appends, p.1 ≠ "")
    (htsp : (appends.map (fun p => p.2.timestamp)).Pairwise (· < ·))
    (hu : u ∉ ts2.map Prod.fst) :
    JsonProvider.get_thread_history ts2 u = []
    ∧ MockProvider.get_thread_history ts2 u = []
    ∧ JsonProvider.get_thread_history (jsonRun H appends) t
        = (if t = "" then [] else takeLast H (appendsTo t appends))
    ∧ (JsonProvider.get_thread_history (jsonRun H appends) t).length ≤ H
    ∧ (t ≠ "" → SqliteProvider.get_thread_history H (sqlRun H appends) t
        = takeLast H (appendsTo t appends))
    ∧ (t ≠ "" → MockProvider.get_thread_history (mockRun H appends) t
        = takeLast H (appendsTo t appends)) := by
  obtain ⟨hj, hm, hs, hg⟩ := run_spec hH appends hkeys htsp
  have hjson2 : JsonProvider.get_thread_history (jsonRun H appends) t
      = (if t = "" then [] else takeLast H (appendsTo t appends)) := by
    unfold JsonProvider.get_thread_history
    by_cases hc : t = ""
    · rw [if_pos hc, if_pos hc]
    · rw [if_neg hc, if_neg hc, hj t]
  refine ⟨?_, ?_, hjson2, ?_, hg t, ?_⟩
  · unfold JsonProvider.get_thread_history
    by_cases hc : u = ""
    · rw [if_pos hc]
    · rw [if_neg hc]
      exact lookupThread_eq_nil_of_not_mem hu
  · exact lookupThread_eq_nil_of_not_mem hu
  · rw [hjson2]
    by_cases hc : t = ""
    · rw [if_pos hc]
      exact Nat.zero_le _
    · rw [if_neg hc]
      exact takeLast_length_le _ _
  · intro ht
    unfold MockProvider.get_thread_history
    rw [hm t]

/-- C2 amended witness at the concrete H = 2 walkthrough, with the
unknown key absent from the over-cap state. -/
theorem C2_amended_get_history_witness :
    ((0 : Nat) < 2
      ∧ (∀ p ∈ ap4, p.1 ≠ "")
      ∧ (ap4.map (fun p => p.2.timestamp)).Pairwise (· < ·)
      ∧ "absent" ∉ overCapThreads.map Prod.fst)
    ∧ (JsonProvider.get_thread_history overCapThreads "absent" = []
      ∧ MockProvider.get_thread_history overCapThreads "absent" = []
      ∧ JsonProvider.get_thread_history (jsonRun 2 ap4) "t1"
          = (if "t1" = "" then [] else takeLast 2 (appendsTo "t1" ap4))
      ∧ (JsonProvider.get_thread_history (jsonRun 2 ap4) "t1").length ≤ 2
      ∧ ("t1" ≠ "" → SqliteProvider.get_thread_history 2 (sqlRun 2 ap4) "t1"
          = takeLast 2 (appendsTo "t1" ap4))
      ∧ ("t1" ≠ "" → MockProvider.get_thread_history (mockRun 2 ap4) "t1"
          = takeLast 2 (appendsTo "t1" ap4))) :=
  ⟨⟨by decide, by decide, by decide, by decide⟩,
    C2_amended_get_history 2 ap4 overCapThreads "t1" "absent"
      (by decide) (by decide) (by decide) (by decide)⟩

/-- C3: SaveAll atomicity — whenever save_threads fails the canonical
file is byte-identical to its pre-call state and false is returned, with
the temporary removed whenever its cleanup succeeds; on success the
canonical file atomically becomes the new document and no temporary
remains; the canonical path only ever holds the old or the new document,
never a partial write; backup files are untouched. -/
theorem C3_saveall_atomic (fs : FileSys) (threads : Threads) (outcome : SaveFail)
    (halfWritten : Option FileContent) :
    ((JsonProvider.save_threads fs threads outcome halfWritten).2 = false →
      (JsonProvider.save_threads fs threads outcome halfWritten).1.main = fs.main)
    ∧ ((JsonProvider.save_threads fs threads outcome halfWritten).2 = true →
      (JsonProvider.save_threads fs threads outcome halfWritten).1.main
          = some (FileContent.valid threads)
        ∧ (JsonProvider.save_threads fs threads outcome halfWritten).1.tmp = none)
    ∧ ((outcome = SaveFail.writeFail true ∨ outcome = SaveFail.replaceFail true) →
        (JsonProvider.save_threads fs threads outcome halfWritten).1.tmp = none)
    ∧ ((JsonProvider.save_threads fs threads outcome halfWritten).1.main = fs.main
        ∨ (JsonProvider.save_threads fs threads outcome halfWritten).1.main
            = some (FileContent.valid threads))
    ∧ (JsonProvider.save_threads fs threads outcome halfWritten).1.backups = fs.backups
    ∧ ((JsonProvider.save_threads fs threads outcome halfWritten).2 = false
        ↔ outcome ≠ SaveFail.noFail) := by
  cases outcome with
  | noFail => simp [JsonProvider.save_threads]
  | writeFail cleanupOk => cases cleanupOk <;> simp [JsonProvider.save_threads]
  | replaceFail cleanupOk => cases cleanupOk <;> simp [JsonProvider.save_threads]

/-- C3 witness: a failure injected while writing the temporary, with
successful temporary cleanup, on a concrete pre-state. -/
theorem C3_saveall_atomic_witness :
    ((JsonProvider.save_threads ⟨some (FileContent.valid parityStale), none, []⟩ overCapThreads
        (SaveFail.writeFail true) (some (FileContent.invalid "x"))).2 = false →
      (JsonProvider.save_threads ⟨some (FileContent.valid parityStale), none, []⟩ overCapThreads
        (SaveFail.writeFail true) (some (FileContent.invalid "x"))).1.main
          = (⟨some (FileContent.valid parityStale), none, []⟩ : FileSys).main)
    ∧ ((JsonProvider.save_threads ⟨some (FileContent.valid parityStale), none, []⟩ overCapThreads
        (SaveFail.writeFail true) (some (FileContent.invalid "x"))).2 = true →
      (JsonProvider.save_threads ⟨some (FileContent.valid parityStale), none, []⟩ overCapThreads
        (SaveFail.writeFail true) (some (FileContent.invalid "x"))).1.main
          = some (FileContent.valid overCapThreads)
        ∧ (JsonProvider.save_threads ⟨some (FileContent.valid parityStale), none, []⟩ overCapThreads
        (SaveFail.writeFail true) (some (FileContent.invalid "x"))).1.tmp = none)
    ∧ ((SaveFail.writeFail true = SaveFail.writeFail true
          ∨ SaveFail.writeFail true = SaveFail.replaceFail true) →
        (JsonProvider.save_threads ⟨some (FileContent.valid parityStale), none, []⟩ overCapThreads
        (SaveFail.writeFail true) (some (FileContent.invalid "x"))).1.tmp = none)
    ∧ ((JsonProvider.save_threads ⟨some (FileContent.valid parityStale), none, []⟩ overCapThreads
        (SaveFail.writeFail true) (some (FileContent.invalid "x"))).1.main
          = (⟨some (FileContent.valid parityStale), none, []⟩ : FileSys).main
        ∨ (JsonProvider.save_threads ⟨some (FileContent.valid parityStale), none, []⟩ overCapThreads
        (SaveFail.writeFail true) (some (FileContent.invalid "x"))).1.main
            = some (FileContent.valid overCapThreads))
    ∧ (JsonProvider.save_threads ⟨some (FileContent.valid parityStale), none, []⟩ overCapThreads
        (SaveFail.writeFail true) (some (FileContent.invalid "x"))).1.backups
        = (⟨some (FileContent.valid parityStale), none, []⟩ : FileSys).backups
    ∧ ((JsonProvider.save_threads ⟨some (FileContent.valid parityStale), none, []⟩ overCapThreads
        (SaveFail.writeFail true) (some (FileContent.invalid "x"))).2 = false
        ↔ (SaveFail.writeFail true ≠ SaveFail.noFail)) :=
  C3_saveall_atomic ⟨some (FileContent.valid parityStale), none, []⟩ overCapThreads
    (SaveFail.writeFail true) (some (FileContent.invalid "x"))

/-- C4: CleanupOlderThan removes exactly the threads whose newest record
timestamp is older than now minus age_days (a thread with zero records
as well), keeps every other thread in full, and returns the number of
threads removed — on the JSON and SQLite backends. -/
theorem C4_cleanup_correct (now days_old : Nat) (threads : Threads) (st : SqlState)
    (hnd : (threads.map Prod.fst).Nodup) :
    ((JsonProvider.cleanup_old_threads now days_old threads).2
        = (threads.filter (fun p => staleThread (now - days_old) p.2)).length)
    ∧ (∀ t h, (t, h) ∈ threads →
        lookupThread (JsonProvider.cleanup_old_threads now days_old threads).1 t
          = if staleThread (now - days_old) h then [] else h)
    ∧ (∀ r, r ∈ (SqliteProvider.cleanup_old_threads now days_old st).1.rows
        ↔ r ∈ st.rows ∧
          ¬(newest_timestamp ((threadRows st.rows r.tid).map Row.email) < now - days_old))
    ∧ ((SqliteProvider.cleanup_old_threads now days_old st).2
        = ((st.rows.map Row.tid).dedup.filter (fun u => decide
            (newest_timestamp ((threadRows st.rows u).map Row.email) < now - days_old))).length) := by
  refine ⟨?_, ?_, ?_, rfl⟩
  · simp [JsonProvider.cleanup_old_threads]
  · intro t h hm
    exact json_cleanup_lookup hnd now days_old hm
  · intro r
    exact sql_cleanup_mem now days_old st r

/-- C4 witness: CleanupOlderThan(30) at day 100 on threads old (newest
record 40 days stale) and new (newest record 1 day old) removes old in
full, keeps new in full utterly untrimmed, and reports one removal, on
both backends. -/
theorem C4_cleanup_correct_witness :
    (cleanupDemoThreads.map Prod.fst).Nodup
    ∧ (((JsonProvider.cleanup_old_threads 100 30 cleanupDemoThreads).2
        = (cleanupDemoThreads.filter (fun p => staleThread (100 - 30) p.2)).length)
    ∧ (∀ t h, (t, h) ∈ cleanupDemoThreads →
        lookupThread (JsonProvider.cleanup_old_threads 100 30 cleanupDemoThreads).1 t
          = if staleThread (100 - 30) h then [] else h)
    ∧ (∀ r, r ∈ (SqliteProvider.cleanup_old_threads 100 30 cleanupDemoSql).1.rows
        ↔ r ∈ cleanupDemoSql.rows ∧
          ¬(newest_timestamp ((threadRows cleanupDemoSql.rows r.tid).map Row.email) < 100 - 30))
    ∧ ((SqliteProvider.cleanup_old_threads 100 30 cleanupDemoSql).2
        = ((cleanupDemoSql.rows.map Row.tid).dedup.filter (fun u => decide
            (newest_timestamp ((threadRows cleanupDemoSql.rows u).map Row.email) < 100 - 30))).length))
    ∧ (JsonProvider.cleanup_old_threads 100 30 cleanupDemoThreads).2 = 1
    ∧ lookupThread (JsonProvider.cleanup_old_threads 100 30 cleanupDemoThreads).1 "new" = [eNew]
    ∧ lookupThread (JsonProvider.cleanup_old_threads 100 30 cleanupDemoThreads).1 "old" = []
    ∧ (SqliteProvider.cleanup_old_threads 100 30 cleanupDemoSql).2 = 1
    ∧ (SqliteProvider.cleanup_old_threads 100 30 cleanupDemoSql).1.rows = [Row.mk 1 "new" eNew] :=
  ⟨by decide, C4_cleanup_correct 100 30 cleanupDemoThreads cleanupDemoSql (by decide),
    by decide, by decide, by decide, by decide, by decide⟩

/-- C5 counterexample: the same cleanup call on the same logical state
gives different results on the file-backed and in-memory backends,
because the mock removes threads whose key contains the substring "old"
instead of removing by age: the stale thread stale1 is removed by JSON
(count 1) but kept by the mock (count 0), and the fresh thread golden is
kept by JSON but removed by the mock. -/
theorem C5_counterexample :
    (JsonProvider.cleanup_old_threads 50 30 parityStale).2 = 1
    ∧ (MockProvider.cleanup_old_threads 30 parityStale).2 = 0
    ∧ (JsonProvider.cleanup_old_threads 50 30 parityStale).1 = []
    ∧ (MockProvider.cleanup_old_threads 30 parityStale).1 = parityStale
    ∧ (JsonProvider.cleanup_old_threads 50 30 parityGolden).2 = 0
    ∧ (MockProvider.cleanup_old_threads 30 parityGolden).2 = 1
    ∧ (JsonProvider.cleanup_old_threads 50 30 parityGolden).1 = parityGolden
    ∧ (MockProvider.cleanup_old_threads 30 parityGolden).1 = [] :=
  ⟨by decide, by decide, by decide, by decide, by decide, by decide, by decide, by decide⟩

/-- C5 amended: backend parity holds for appends, reads and stats —
after any Facade append sequence the JSON, SQLite and in-memory backends
hold the same ordered per-thread histories; the integer stats counters
of the JSON and in-memory backends agree on every shared state, and the
SQLite counters agree with both on the equal logical state (the table
decoded to its thread mapping); the JSON and SQLite cleanups also agree
on equal logical states, removing the same threads and reporting the
same count.  Cleanup on the in-memory backend does not mirror: it
removes the threads whose key contains "old", not the threads stale by
age (see the counterexample). -/
theorem C5_amended_parity (H : Nat) (appends : List (String × Email)) (t : String)
    (ts2 : Threads) (st : SqlState) (now days_old : Nat)
    (hH : 0 < H)
    (hkeys : ∀ p ∈ appends, p.1 ≠ "")
    (htsp : (appends.map (fun p => p.2.timestamp)).Pairwise (· < ·)) :
    lookupThread (mockRun H appends) t = lookupThread (jsonRun H appends) t
    ∧ (t ≠ "" → SqliteProvider.get_thread_history H (sqlRun H appends) t
        = lookupThread (jsonRun H appends) t)
    ∧ JsonProvider.get_storage_stats H ts2 = MockProvider.get_storage_stats H ts2
    ∧ SqliteProvider.get_storage_stats H st = JsonProvider.get_storage_stats H (sqlThreads st)
    ∧ SqliteProvider.get_storage_stats H st = MockProvider.get_storage_stats H (sqlThreads st)
    ∧ (JsonProvider.cleanup_old_threads now days_old (sqlThreads st)).2
        = (SqliteProvider.cleanup_old_threads now days_old st).2
    ∧ (∀ u, lookupThread (JsonProvider.cleanup_old_threads now days_old (sqlThreads st)).1 u
        = (threadRows (SqliteProvider.cleanup_old_threads now days_old st).1.rows u).map
            Row.email) := by
  obtain ⟨hj, hm, hs, hg⟩ := run_spec hH appends hkeys htsp
  refine ⟨?_, ?_, stats_json_eq_mock H ts2, sql_stats_eq_json H st,
    (sql_stats_eq_json H st).trans (stats_json_eq_mock H (sqlThreads st)),
    sql_cleanup_count_eq_json now days_old st,
    fun u => sql_cleanup_state_eq_json now days_old st u⟩
  · rw [hm t, hj t]
  · intro ht
    rw [hg t ht, hj t]

/-- C5 amended witness at the H = 2 walkthrough, with concrete states
for the stats counters and for the JSON-SQLite cleanup parity. -/
theorem C5_amended_parity_witness :
    ((0 : Nat) < 2
      ∧ (∀ p ∈ ap4, p.1 ≠ "")
      ∧ (ap4.map (fun p => p.2.timestamp)).Pairwise (· < ·))
    ∧ (lookupThread (mockRun 2 ap4) "t1" = lookupThread (jsonRun 2 ap4) "t1"
      ∧ ("t1" ≠ "" → SqliteProvider.get_thread_history 2 (sqlRun 2 ap4) "t1"
          = lookupThread (jsonRun 2 ap4) "t1")
      ∧ JsonProvider.get_storage_stats 2 overCapThreads
          = MockProvider.get_storage_stats 2 overCapThreads
      ∧ SqliteProvider.get_storage_stats 2 cleanupDemoSql
          = JsonProvider.get_storage_stats 2 (sqlThreads cleanupDemoSql)
      ∧ SqliteProvider.get_storage_stats 2 cleanupDemoSql
          = MockProvider.get_storage_stats 2 (sqlThreads cleanupDemoSql)
      ∧ (JsonProvider.cleanup_old_threads 100 30 (sqlThreads cleanupDemoSql)).2
          = (SqliteProvider.cleanup_old_threads 100 30 cleanupDemoSql).2
      ∧ (∀ u, lookupThread
            (JsonProvider.cleanup_old_threads 100 30 (sqlThreads cleanupDemoSql)).1 u
          = (threadRows (SqliteProvider.cleanup_old_threads 100 30 cleanupDemoSql).1.rows u).map
              Row.email)) :=
  ⟨⟨by decide, by decide, by decide⟩,
    C5_amended_parity 2 ap4 "t1" overCapThreads cleanupDemoSql 100 30
      (by decide) (by decide) (by decide)⟩

/-- C6 amended: the Facade performs no thread-key validation itself; the
JSON and SQLite backends reject an empty thread key in their own guard,
returning false for append and the empty sequence for history and
leaving their state untouched, while the in-memory mock backend has no
such guard and accepts the empty key (see the counterexample). -/
theorem C6_amended_validation (H : Nat) (ts2 : Threads) (st : SqlState) (e : Email) :
    JsonProvider.add_email_to_thread H ts2 "" e = (false, ts2)
    ∧ SqliteProvider.add_email_to_thread H st "" e = (false, st)
    ∧ JsonProvider.get_thread_history ts2 "" = []
    ∧ SqliteProvider.get_thread_history H st "" = []
    ∧ (MockProvider.add_email_to_thread H ts2 "" e).1 = true := by
  refine ⟨?_, ?_, ?_, ?_, ?_⟩
  · simp [JsonProvider.add_email_to_thread]
  · simp [SqliteProvider.add_email_to_thread]
  · simp [JsonProvider.get_thread_history]
  · simp [SqliteProvider.get_thread_history]
  · simp [MockProvider.add_email_to_thread]

/-- C6 counterexample: a Facade append with an empty thread key while
the mock backend is active is not rejected — it returns success and
mutates the backend state, storing the record under the empty key, which
a subsequent mock read returns. -/
theorem C6_counterexample :
    Facade.add_email_to_thread_mock 5 [] "" "alice@test.com" "subj" "body" none false 42
      = (true, [("", [Email.mk none "alice@test.com" "subj" "body" 42 false])])
    ∧ MockProvider.get_thread_history
        (Facade.add_email_to_thread_mock 5 [] "" "alice@test.com" "subj" "body" none false 42).2 ""
      = [Email.mk none "alice@test.com" "subj" "body" 42 false] :=
  ⟨by decide, by decide⟩

/-- C7: corrupted-file recovery — when the persisted file holds
unparsable content, load_threads returns the empty mapping without
raising, the canonical path is cleared, and a backup keyed by the
current unix time holds exactly the original invalid content; the
temporary file is untouched. -/
theorem C7_corruption_recovery (fs : FileSys) (now : Nat) (raw : String)
    (hmain : fs.main = some (FileContent.invalid raw)) :
    (JsonProvider.load_threads fs now).2 = []
    ∧ (JsonProvider.load_threads fs now).1.main = none
    ∧ (now, FileContent.invalid raw) ∈ (JsonProvider.load_threads fs now).1.backups
    ∧ (JsonProvider.load_threads fs now).1.tmp = fs.tmp := by
  unfold JsonProvider.load_threads
  rw [hmain]
  exact ⟨rfl, rfl, List.mem_cons_self _ _, rfl⟩

/-- C7 witness: a concrete corrupt file at unix time 777. -/
theorem C7_corruption_recovery_witness :
    ((⟨some (FileContent.invalid "not-json"), none, []⟩ : FileSys).main
        = some (FileContent.invalid "not-json"))
    ∧ ((JsonProvider.load_threads ⟨some (FileContent.invalid "not-json"), none, []⟩ 777).2 = []
      ∧ (JsonProvider.load_threads ⟨some (FileContent.invalid "not-json"), none, []⟩ 777).1.main
          = none
      ∧ (777, FileContent.invalid "not-json")
          ∈ (JsonProvider.load_threads ⟨some (FileContent.invalid "not-json"), none, []⟩ 777).1.backups
      ∧ (JsonProvider.load_threads ⟨some (FileContent.invalid "not-json"), none, []⟩ 777).1.tmp
          = (⟨some (FileContent.invalid "not-json"), none, []⟩ : FileSys).tmp) :=
  ⟨rfl, C7_corruption_recovery ⟨some (FileContent.invalid "not-json"), none, []⟩ 777 "not-json" rfl⟩

/-- C8 counterexample: the source labels a reply block "Bot", not
"system" as the claim states, so on a one-reply history the produced
transcript differs from the system-labelled one. -/
theorem C8_counterexample :
    sender_label eC = "Bot"
    ∧ sender_label_specWords eC = "system"
    ∧ ("Bot" : String) ≠ "system"
    ∧ format_thread_context [eC] ≠ format_thread_context_specWords [eC] :=
  ⟨by decide, by decide, by decide, by decide⟩

/-- C8 amended: for a nonempty history the transcript is the header line
followed by one four-line block per record in stored order — labelled
"Bot" when the reply flag is set and by the sender otherwise, carrying
subject and body — then the trailing instruction marker, all joined by
newlines; the empty history gives the empty string. -/
theorem C8_amended_format (thread_history : List Email) (hne : thread_history ≠ []) :
    format_thread_context thread_history
      = String.intercalate "\n"
          (("Here is the conversation history:" :: (thread_history.map emailBlock).flatten)
            ++ ["\nNow please reply to the latest email below:"])
    ∧ format_thread_context [] = ""
    ∧ ((thread_history.map emailBlock).flatten).length = 4 * thread_history.length
    ∧ ∀ e ∈ thread_history, emailBlock e
        = ["\nFrom: " ++ (if e.is_bot_reply then "Bot" else e.sender),
            "Subject: " ++ e.subject, "Message: " ++ e.body, dashLine] := by
  refine ⟨?_, rfl, emailBlocks_length _, ?_⟩
  · unfold format_thread_context
    rw [if_neg hne, foldl_emailBlocks]
    rfl
  · intro e he
    rfl

/-- C8 amended witness on a two-record history with one reply. -/
theorem C8_amended_format_witness :
    ([eA, eC] ≠ ([] : List Email))
    ∧ (format_thread_context [eA, eC]
      = String.intercalate "\n"
          (("Here is the conversation history:" :: ([eA, eC].map emailBlock).flatten)
            ++ ["\nNow please reply to the latest email below:"])
    ∧ format_thread_context [] = ""
    ∧ (([eA, eC].map emailBlock).flatten).length = 4 * [eA, eC].length
    ∧ ∀ e ∈ [eA, eC], emailBlock e
        = ["\nFrom: " ++ (if e.is_bot_reply then "Bot" else e.sender),
            "Subject: " ++ e.subject, "Message: " ++ e.body, dashLine]) :=
  ⟨by decide, C8_amended_format [eA, eC] (by decide)⟩

/-- C9 counterexample: mock reads return shallow copies — mutating the
record object at the address returned by get_thread_history changes the
stored state and the record values every subsequent read observes. -/
theorem C9_counterexample :
    MockProviderHeap.get_thread_history exHeap "t" = [2]
    ∧ renderHistory exHeap "t" = [eA]
    ∧ renderHistory (setRec exHeap 2 eB) "t" = [eB]
    ∧ renderAll (setRec exHeap 2 eB) ≠ renderAll exHeap
    ∧ eA ≠ eB :=
  ⟨by decide, by decide, by decide, by decide, by decide⟩

/-- C9 amended: mock reads return shallow copies: load_threads allocates
a fresh top-level dict whose mutation leaves the stored state unchanged,
but the nested history lists and record objects are shared, so mutating
a record object reached from a returned history is visible to the
backend and to every subsequent read. -/
theorem C9_amended_shallow_copy (h : MockHeap) (t : String) (hwf : h.internal < h.next) :
    (MockProviderHeap.load_threads h).2 ≠ h.internal
    ∧ renderAll (MockProviderHeap.load_threads h).1 = renderAll h
    ∧ (∀ entries, renderAll (setDictEntries (MockProviderHeap.load_threads h).1
        (MockProviderHeap.load_threads h).2 entries) = renderAll h)
    ∧ ((MockProviderHeap.load_threads h).1.dicts (MockProviderHeap.load_threads h).2
        = h.dicts h.internal)
    ∧ (∀ a e₂, a ∈ MockProviderHeap.get_thread_history h t →
        renderHistory (setRec h a e₂) t
          = (MockProviderHeap.get_thread_history h t).map
              (fun x => if x = a then e₂ else h.recs x)) := by
  have hne : h.internal ≠ h.next := Nat.ne_of_lt hwf
  refine ⟨?_, ?_, ?_, ?_, ?_⟩
  · exact fun hc => hne hc.symm
  · simp [renderAll, MockProviderHeap.load_threads, Function.update_apply, hne]
  · intro entries
    simp [renderAll, setDictEntries, MockProviderHeap.load_threads, Function.update_apply, hne]
  · simp [MockProviderHeap.load_threads, Function.update_apply]
  · intro a e₂ ha
    have hsame : MockProviderHeap.get_thread_history (setRec h a e₂) t
        = MockProviderHeap.get_thread_history h t := rfl
    unfold renderHistory
    rw [hsame]
    refine List.map_congr_left ?_
    intro x hx
    simp [setRec, Function.update_apply]

/-- C9 amended witness at the concrete one-record heap. -/
theorem C9_amended_shallow_copy_witness :
    exHeap.internal < exHeap.next
    ∧ ((MockProviderHeap.load_threads exHeap).2 ≠ exHeap.internal
    ∧ renderAll (MockProviderHeap.load_threads exHeap).1 = renderAll exHeap
    ∧ (∀ entries, renderAll (setDictEntries (MockProviderHeap.load_threads exHeap).1
        (MockProviderHeap.load_threads exHeap).2 entries) = renderAll exHeap)
    ∧ ((MockProviderHeap.load_threads exHeap).1.dicts (MockProviderHeap.load_threads exHeap).2
        = exHeap.dicts exHeap.internal)
    ∧ (∀ a e₂, a ∈ MockProviderHeap.get_thread_history exHeap "t" →
        renderHistory (setRec exHeap a e₂) "t"
          = (MockProviderHeap.get_thread_history exHeap "t").map
              (fun x => if x = a then e₂ else exHeap.recs x))) :=
  ⟨by decide, C9_amended_shallow_copy exHeap "t" (by decide)⟩

/-- C10: any configured storage provider type whose lowercase form is
none of json, sqlite and mock makes the factory fall back to the JSON
file-backed provider, with no rejection of the invalid selection. -/
theorem C10_factory_fallback (provider_type : String)
    (h1 : lowerChars provider_type ≠ "json".toList)
    (h2 : lowerChars provider_type ≠ "sqlite".toList)
    (h3 : lowerChars provider_type ≠ "mock".toList) :
    get_storage_provider provider_type = ProviderKind.json := by
  unfold get_storage_provider
  simp only []
  rw [if_neg h1, if_neg h2, if_neg h3]

/-- C10 witness: the unknown provider type Postgres falls back to the
JSON provider. -/
theorem C10_factory_fallback_witness :
    (lowerChars "Postgres" ≠ "json".toList
      ∧ lowerChars "Postgres" ≠ "sqlite".toList
      ∧ lowerChars "Postgres" ≠ "mock".toList)
    ∧ get_storage_provider "Postgres" = ProviderKind.json :=
  ⟨⟨by decide, by decide, by decide⟩,
    C10_factory_fallback "Postgres" (by decide) (by decide) (by decide)⟩
